import Mathlib

set_option maxRecDepth 8000

namespace Cuei

/-!
Verification of the SCTE-35 cue codec (package cuei).

The repository source `cue.go` provides the `Cue` orchestrator: `Decode`,
`decodeBytes`, `dscptrLoop`, `rollLoop`, `Encode`, `AdjustPts`,
`mkSpliceInsert` and `Six2Five`.  The leaf components it calls (the bit
reader and writer, the `InfoSection`, `Command` and `Descriptor` codecs,
the checksum and the text transcoders) are part of this repository but are
not in the provided sources; they are modelled from the specification, and
each such definition carries a doc comment saying so.

Machine integers are modelled as `Nat` (or `Int` where a signed value can
occur), with explicit `% 2 ^ w` wherever the Go code truncates.
-/

/-- The `w` low bits of `n`, most significant first.  This is the bit
string a fixed-width big-endian field writer emits for value `n`. -/
def bitsOfNat (n : Nat) : Nat → List Bool
  | 0 => []
  | w + 1 => n.testBit w :: bitsOfNat n w

/-- The unsigned value of a bit string read most significant bit first. -/
def natOfBits (bs : List Bool) : Nat :=
  bs.foldl (fun a b => 2 * a + (if b then 1 else 0)) 0

/-- Group a byte-aligned bit string into bytes (an incomplete trailing
group, which never occurs at the call sites, is dropped). -/
def bytesOfBits : List Bool → List Nat
  | b0 :: b1 :: b2 :: b3 :: b4 :: b5 :: b6 :: b7 :: rest =>
      natOfBits [b0, b1, b2, b3, b4, b5, b6, b7] :: bytesOfBits rest
  | _ => []

/-- The bit string of a byte string, each byte most significant bit
first. -/
def bitsOfBytes (bytes : List Nat) : List Bool :=
  bytes.foldr (fun b acc => bitsOfNat b 8 ++ acc) []

/-- Modelled from the spec: the bounds-checked bit cursor (`BitCursor`,
spec section 4.1); the repository's bit reader is not among the provided
sources.  Reading `w` bits succeeds only when `w` bits remain. -/
def readBits (bd : List Bool) (w : Nat) : Option (Nat × List Bool) :=
  if w ≤ bd.length then some (natOfBits (bd.take w), bd.drop w) else none

/-- Read a single bit as a flag. -/
def readBool (bd : List Bool) : Option (Bool × List Bool) :=
  match readBits bd 1 with
  | some (v, rest) => some (v == 1, rest)
  | none => none

/-- Read `n` whole bytes. -/
def readBytes (bd : List Bool) : Nat → Option (List Nat × List Bool)
  | 0 => some ([], bd)
  | n + 1 =>
    match readBits bd 8 with
    | none => none
    | some (b, bd) =>
      match readBytes bd n with
      | none => none
      | some (bs, bd) => some (b :: bs, bd)

/-! ## Text and checksum helpers

These are repository functions called from `cue.go` but not among the
provided sources; they are modelled from the specification. -/

/-- Value of one hexadecimal digit character, `0` for any other
character. -/
def hexDigitVal (c : Char) : Nat :=
  if 48 ≤ c.toNat ∧ c.toNat ≤ 57 then c.toNat - 48
  else if 97 ≤ c.toNat ∧ c.toNat ≤ 102 then c.toNat - 87
  else if 65 ≤ c.toNat ∧ c.toNat ≤ 70 then c.toNat - 55
  else 0

/-- Value of a hexadecimal digit string, most significant digit first. -/
def hexVal (cs : List Char) : Nat :=
  cs.foldl (fun a c => 16 * a + hexDigitVal c) 0

/-- Modelled from the spec: `hex2Int` interprets a string as a hexadecimal
numeral (spec section 4.6: the descriptor's eventID is interpreted as a
hexadecimal numeral); an optional 0x prefix is accepted. -/
def hex2Int (s : String) : Nat :=
  match s.data with
  | '0' :: 'x' :: rest => hexVal rest
  | '0' :: 'X' :: rest => hexVal rest
  | cs => hexVal cs

/-- The lowercase hexadecimal digit character for `d < 16`. -/
def hexChar (d : Nat) : Char :=
  if d < 10 then Char.ofNat (48 + d) else Char.ofNat (87 + d)

/-- Hexadecimal digits of `n`, least significant first (the first
argument is fuel bounding the digit count, so the function is structural
and computes by kernel reduction). -/
def hexDigitsRevAux : Nat → Nat → List Char
  | 0, _ => []
  | fuel + 1, n => if n = 0 then [] else hexChar (n % 16) :: hexDigitsRevAux fuel (n / 16)

/-- Hexadecimal digits of `n`, least significant first. -/
def hexDigitsRev (n : Nat) : List Char :=
  hexDigitsRevAux n n

/-- Lowercase hexadecimal numeral of `n`, no prefix. -/
def natToHex (n : Nat) : String :=
  if n = 0 then "0" else String.mk (hexDigitsRev n).reverse

/-- Modelled from the spec: the standard 32-bit cyclic redundancy check
used by the container format (MPEG-2 CRC-32: polynomial 0x04c11db7,
initial value all ones, no final complement), computed bitwise. -/
def crcBit (c : Nat) : Nat :=
  if c.testBit 31 then ((2 * c) ^^^ 0x04c11db7) % 2 ^ 32 else (2 * c) % 2 ^ 32

/-- Fold one byte into the running checksum. -/
def crcByte (c b : Nat) : Nat :=
  crcBit^[8] (c ^^^ ((b % 256) * 2 ^ 24))

/-- Modelled from the spec: `cRC32` over a byte string. -/
def cRC32 (bites : List Nat) : Nat :=
  bites.foldl crcByte 0xffffffff

/-- The character of one 6-bit base64 value (standard alphabet). -/
def b64Char (d : Nat) : Char :=
  if d < 26 then Char.ofNat (65 + d)
  else if d < 52 then Char.ofNat (97 + (d - 26))
  else if d < 62 then Char.ofNat (48 + (d - 52))
  else if d = 62 then '+'
  else '/'

/-- The 6-bit value of a base64 character, none for padding or other
characters. -/
def b64Val (c : Char) : Option Nat :=
  if 65 ≤ c.toNat ∧ c.toNat ≤ 90 then some (c.toNat - 65)
  else if 97 ≤ c.toNat ∧ c.toNat ≤ 122 then some (c.toNat - 71)
  else if 48 ≤ c.toNat ∧ c.toNat ≤ 57 then some (c.toNat + 4)
  else if c = '+' then some 62
  else if c = '/' then some 63
  else none

/-- Regroup 6-bit values into bytes, dropping trailing partial bits. -/
def b64Groups : List Nat → List Nat
  | v0 :: v1 :: v2 :: v3 :: rest =>
    let n := ((v0 % 64) * 2 ^ 18) + ((v1 % 64) * 2 ^ 12) + ((v2 % 64) * 2 ^ 6) + (v3 % 64)
    (n / 2 ^ 16) :: (n / 2 ^ 8 % 256) :: (n % 256) :: b64Groups rest
  | [v0, v1, v2] =>
    let n := ((v0 % 64) * 2 ^ 18) + ((v1 % 64) * 2 ^ 12) + ((v2 % 64) * 2 ^ 6)
    [n / 2 ^ 16, n / 2 ^ 8 % 256]
  | [v0, v1] =>
    let n := ((v0 % 64) * 2 ^ 18) + ((v1 % 64) * 2 ^ 12)
    [n / 2 ^ 16]
  | _ => []

/-- Modelled from the spec: base64 text decoding (spec sections 1 and 6;
text transcoding is assumed available).  Padding and foreign characters
are skipped. -/
def decB64 (s : String) : List Nat :=
  b64Groups (s.data.filterMap b64Val)

/-- Split bytes into base64 characters, three bytes at a time. -/
def b64Chunks : List Nat → List Char
  | b0 :: b1 :: b2 :: rest =>
    let n := (b0 % 256) * 2 ^ 16 + (b1 % 256) * 2 ^ 8 + (b2 % 256)
    b64Char (n / 2 ^ 18) :: b64Char (n / 2 ^ 12 % 64) :: b64Char (n / 2 ^ 6 % 64) ::
      b64Char (n % 64) :: b64Chunks rest
  | [b0, b1] =>
    let n := (b0 % 256) * 2 ^ 16 + (b1 % 256) * 2 ^ 8
    [b64Char (n / 2 ^ 18), b64Char (n / 2 ^ 12 % 64), b64Char (n / 2 ^ 6 % 64), '=']
  | [b0] =>
    let n := (b0 % 256) * 2 ^ 16
    [b64Char (n / 2 ^ 18), b64Char (n / 2 ^ 12 % 64), '=', '=']
  | [] => []

/-- Modelled from the spec: base64 text encoding. -/
def encB64 (bytes : List Nat) : String :=
  String.mk (b64Chunks bytes)

/-- Value of one decimal, octal, binary or hexadecimal scan digit. -/
def scanDigitVal (c : Char) : Option Nat :=
  if 48 ≤ c.toNat ∧ c.toNat ≤ 57 then some (c.toNat - 48)
  else if 97 ≤ c.toNat ∧ c.toNat ≤ 102 then some (c.toNat - 87)
  else if 65 ≤ c.toNat ∧ c.toNat ≤ 70 then some (c.toNat - 55)
  else none

/-- Consume the maximal run of digits valid in `base`, returning the
accumulated value and the number of digits consumed. -/
def scanDigits (base : Nat) : List Char → Nat → Nat × Nat
  | c :: rest, acc =>
    match scanDigitVal c with
    | some d =>
      if d < base then
        let (v, k) := scanDigits base rest (base * acc + d)
        (v, k + 1)
      else (acc, 0)
    | none => (acc, 0)
  | [], acc => (acc, 0)

/-- Modelled from the Go standard library behaviour of the call in
`Cue.Decode`: `fmt.Sscan` into a `*big.Int` parses an optional sign
followed by a Go-style integer numeral — base taken from the prefix
(0x/0X hexadecimal, 0b/0B binary, 0o/0O or a bare leading 0 octal),
decimal otherwise — consuming the maximal digit run, ignoring trailing
input, and failing when no digit is consumed. -/
def sscanBigInt (s : String) : Option Int :=
  let run : Nat → List Char → Option Nat := fun base cs =>
    let (v, k) := scanDigits base cs 0
    if k = 0 then none else some v
  let mag : List Char → Option Nat := fun cs =>
    match cs with
    | '0' :: 'x' :: rest => run 16 rest
    | '0' :: 'X' :: rest => run 16 rest
    | '0' :: 'b' :: rest => run 2 rest
    | '0' :: 'B' :: rest => run 2 rest
    | '0' :: 'o' :: rest => run 8 rest
    | '0' :: 'O' :: rest => run 8 rest
    | '0' :: rest => some (scanDigits 8 rest 0).1
    | cs => run 10 cs
  match s.data with
  | '-' :: rest => (mag rest).map (fun n => -(n : Int))
  | '+' :: rest => (mag rest).map (fun n => (n : Int))
  | cs => (mag cs).map (fun n => (n : Int))

/-- Big-endian bytes with fuel bounding the byte count, so the function
is structural and computes by kernel reduction. -/
def natBytesAux : Nat → Nat → List Nat
  | 0, _ => []
  | fuel + 1, n => if n = 0 then [] else natBytesAux fuel (n / 256) ++ [n % 256]

/-- Modelled from the Go standard library: `big.Int.Bytes` returns the
big-endian bytes of the magnitude with no leading zero bytes (empty for
zero). -/
def natBytes (n : Nat) : List Nat :=
  natBytesAux n n

/-- Modelled from the spec: the repository's generic slice membership
helper used by `Six2Five`. -/
def isIn (l : List Nat) (x : Nat) : Bool :=
  l.contains x

/-! ## Data model

The `Cue` structure and its field names follow `cue.go`; the
`InfoSection`, `Command` and `Descriptor` structures are modelled from the
spec (section 3) together with the field accesses made by `cue.go`
(`mkSpliceInsert`, `Six2Five`, `rollLoop`).  The Go code holds every
variant's fields in one struct with a numeric discriminator; the model
does the same.  Go nil pointers correspond to the zero record.  Time
fields are the wire 33-bit (or 40-bit) tick counts, as in the spec. -/

structure InfoSection where
  TableID : Nat := 0
  SectionSyntaxIndicator : Bool := false
  Private : Bool := false
  Reserved : Nat := 0
  SectionLength : Nat := 0
  ProtocolVersion : Nat := 0
  EncryptedPacket : Bool := false
  EncryptionAlgorithm : Nat := 0
  PtsAdjustment : Int := 0
  CwIndex : Nat := 0
  Tier : Nat := 0
  CommandLength : Nat := 0
  CommandType : Nat := 0
deriving DecidableEq

structure Command where
  CommandType : Nat := 0
  Name : String := ""
  SpliceEventID : Nat := 0
  SpliceEventCancelIndicator : Bool := false
  OutOfNetworkIndicator : Bool := false
  ProgramSpliceFlag : Bool := false
  DurationFlag : Bool := false
  BreakAutoReturn : Bool := false
  BreakDuration : Nat := 0
  TimeSpecifiedFlag : Bool := false
  PTS : Nat := 0
  Components : List (Bool × Nat) := []
  SpliceImmediateFlag : Bool := false
  AvailNum : Nat := 0
  AvailExpected : Nat := 0
deriving DecidableEq

structure Descriptor where
  Tag : Nat := 0
  Name : String := ""
  SegmentationEventID : String := ""
  SegmentationEventCancelIndicator : Bool := false
  ProgramSegmentationFlag : Bool := false
  SegmentationDurationFlag : Bool := false
  DeliveryNotRestrictedFlag : Bool := false
  WebDeliveryAllowedFlag : Bool := false
  NoRegionalBlackoutFlag : Bool := false
  ArchiveAllowedFlag : Bool := false
  DeviceRestrictions : Nat := 0
  SegmentationDuration : Nat := 0
  SegmentationUpidType : Nat := 0
  SegmentationUpid : List Nat := []
  SegmentationTypeID : Nat := 0
  SegmentNum : Nat := 0
  SegmentsExpected : Nat := 0
  SubSegmentNum : Nat := 0
  SubSegmentsExpected : Nat := 0
  Bites : List Nat := []
deriving DecidableEq

/-- A SCTE-35 cue, following the `Cue` struct of `cue.go`.  The opaque
packet context (`*packetData`, attached only by the external
demultiplexer) is modelled as an optional unit. -/
structure Cue where
  InfoSection : InfoSection := {}
  Command : Command := {}
  Dll : Nat := 0
  Descriptors : List Descriptor := []
  PacketData : Option Unit := none
  Crc32 : Nat := 0
deriving DecidableEq

/-! ## Splice time (the optional 33-bit PTS field)

Modelled from the spec (section 4.4): a presence flag, then — when
present — 6 reserved bits and the 33-bit timestamp, else 7 reserved bits
(the reserved bits are written as ones and skipped on read). -/

def spliceTimeBits (tsf : Bool) (pts : Nat) : List Bool :=
  if tsf then true :: (bitsOfNat 0x3f 6 ++ bitsOfNat pts 33)
  else false :: bitsOfNat 0x7f 7

def readSpliceTime (bd : List Bool) : Option ((Bool × Nat) × List Bool) :=
  match readBool bd with
  | none => none
  | some (f, bd) =>
    if f then
      match readBits bd 6 with
      | none => none
      | some (_, bd) =>
        match readBits bd 33 with
        | none => none
        | some (p, bd) => some ((true, p), bd)
    else
      match readBits bd 7 with
      | none => none
      | some (_, bd) => some ((false, 0), bd)

/-! ## Command codec

Modelled from the spec (section 4.4).  The decoder dispatches on the
command type; the Splice Insert and Time Signal layouts are given by the
spec.  Splice Null has no body; the spec gives no byte layout for the
remaining types, and the `Encode` doc comment in `cue.go` states that
encoding works for Splice Inserts and Time Signals, so the other types are
modelled with an empty body.  The decoder stages mirror the sequential
field assignments of a Go decoder. -/

def cmdName (t : Nat) : String :=
  match t with
  | 0 => "Splice Null"
  | 4 => "Splice Schedule"
  | 5 => "Splice Insert"
  | 6 => "Time Signal"
  | 7 => "Bandwidth Reservation"
  | 255 => "Private"
  | _ => "Unknown"

def Command.bits (c : Command) : List Bool :=
  match c.CommandType with
  | 5 =>
    bitsOfNat c.SpliceEventID 32 ++
    [c.SpliceEventCancelIndicator] ++ bitsOfNat 0x7f 7 ++
    (if c.SpliceEventCancelIndicator then [] else
      [c.OutOfNetworkIndicator, c.ProgramSpliceFlag, c.DurationFlag, c.SpliceImmediateFlag] ++
      bitsOfNat 0xf 4 ++
      (if c.ProgramSpliceFlag && !c.SpliceImmediateFlag then
        spliceTimeBits c.TimeSpecifiedFlag c.PTS else []) ++
      (if c.ProgramSpliceFlag then [] else
        bitsOfNat c.Components.length 8 ++
        (c.Components.map (fun q => spliceTimeBits q.1 q.2)).flatten) ++
      (if c.DurationFlag then
        c.BreakAutoReturn :: (bitsOfNat 0x3f 6 ++ bitsOfNat c.BreakDuration 33) else []) ++
      bitsOfNat c.AvailNum 8 ++ bitsOfNat c.AvailExpected 8)
  | 6 => spliceTimeBits c.TimeSpecifiedFlag c.PTS
  | _ => []

/-- `Command.Encode` returns the serialized command bytes, as called from
`Cue.Encode` in `cue.go`. -/
def Command.Encode (c : Command) : List Nat :=
  bytesOfBits c.bits

def readComponents (bd : List Bool) : Nat → Option (List (Bool × Nat) × List Bool)
  | 0 => some ([], bd)
  | n + 1 =>
    match readSpliceTime bd with
    | none => none
    | some (q, bd) =>
      match readComponents bd n with
      | none => none
      | some (qs, bd) => some (q :: qs, bd)

def siAvails (c : Command) (bd : List Bool) : Option (Command × List Bool) :=
  match readBits bd 8 with
  | none => none
  | some (an, bd) =>
    match readBits bd 8 with
    | none => none
    | some (ae, bd) => some ({ c with AvailNum := an, AvailExpected := ae }, bd)

def siDuration (c : Command) (bd : List Bool) : Option (Command × List Bool) :=
  if c.DurationFlag then
    match readBool bd with
    | none => none
    | some (ar, bd) =>
      match readBits bd 6 with
      | none => none
      | some (_, bd) =>
        match readBits bd 33 with
        | none => none
        | some (dur, bd) =>
          siAvails { c with BreakAutoReturn := ar, BreakDuration := dur } bd
  else siAvails c bd

def siComponents (c : Command) (bd : List Bool) : Option (Command × List Bool) :=
  if c.ProgramSpliceFlag then siDuration c bd
  else
    match readBits bd 8 with
    | none => none
    | some (n, bd) =>
      match readComponents bd n with
      | none => none
      | some (qs, bd) => siDuration { c with Components := qs } bd

def siTime (c : Command) (bd : List Bool) : Option (Command × List Bool) :=
  if c.ProgramSpliceFlag && !c.SpliceImmediateFlag then
    match readSpliceTime bd with
    | none => none
    | some ((f, p), bd) => siComponents { c with TimeSpecifiedFlag := f, PTS := p } bd
  else siComponents c bd

def Command.Decode (t : Nat) (bd : List Bool) : Option (Command × List Bool) :=
  match t with
  | 5 =>
    match readBits bd 32 with
    | none => none
    | some (eid, bd) =>
      match readBool bd with
      | none => none
      | some (canc, bd) =>
        match readBits bd 7 with
        | none => none
        | some (_, bd) =>
          if canc then
            some ({ CommandType := 5, Name := "Splice Insert", SpliceEventID := eid,
                    SpliceEventCancelIndicator := true }, bd)
          else
            match readBool bd with
            | none => none
            | some (oni, bd) =>
              match readBool bd with
              | none => none
              | some (psf, bd) =>
                match readBool bd with
                | none => none
                | some (df, bd) =>
                  match readBool bd with
                  | none => none
                  | some (sif, bd) =>
                    match readBits bd 4 with
                    | none => none
                    | some (_, bd) =>
                      siTime { CommandType := 5, Name := "Splice Insert",
                               SpliceEventID := eid,
                               OutOfNetworkIndicator := oni, ProgramSpliceFlag := psf,
                               DurationFlag := df, SpliceImmediateFlag := sif } bd
  | 6 =>
    match readSpliceTime bd with
    | none => none
    | some ((f, p), bd) =>
      some ({ CommandType := 6, Name := "Time Signal",
              TimeSpecifiedFlag := f, PTS := p }, bd)
  | _ => some ({ CommandType := t, Name := cmdName t }, bd)

/-! ## InfoSection codec

Modelled from the spec (sections 3 and 4.3): the fixed 14-byte header.
The decoder populates the table identifier it just read (the data model
lists it as an `InfoSection` field) and then validates it; a mismatch
returns failure carrying the partially decoded header, matching the
in-place mutation of the Go decoder called from `decodeBytes`. -/

def InfoSection.bits (i : InfoSection) : List Bool :=
  bitsOfNat i.TableID 8 ++
  [i.SectionSyntaxIndicator, i.Private] ++ bitsOfNat i.Reserved 2 ++
  bitsOfNat i.SectionLength 12 ++
  bitsOfNat i.ProtocolVersion 8 ++
  [i.EncryptedPacket] ++ bitsOfNat i.EncryptionAlgorithm 6 ++
  bitsOfNat (i.PtsAdjustment.emod (2 ^ 33)).toNat 33 ++
  bitsOfNat i.CwIndex 8 ++
  bitsOfNat i.Tier 12 ++
  bitsOfNat i.CommandLength 12 ++
  bitsOfNat i.CommandType 8

/-- `InfoSection.Encode` returns the serialized header bytes, encoded
after the orchestrator finalized the length fields (spec section 4.3). -/
def InfoSection.Encode (i : InfoSection) : List Nat :=
  bytesOfBits i.bits

def InfoSection.Decode (bd : List Bool) : Option (Bool × InfoSection × List Bool) :=
  match readBits bd 8 with
  | none => none
  | some (tid, bd) =>
    if tid = 0xfc then
      match readBool bd with
      | none => none
      | some (ssi, bd) =>
        match readBool bd with
        | none => none
        | some (priv, bd) =>
          match readBits bd 2 with
          | none => none
          | some (rsv, bd) =>
            match readBits bd 12 with
            | none => none
            | some (sl, bd) =>
              match readBits bd 8 with
              | none => none
              | some (pv, bd) =>
                match readBool bd with
                | none => none
                | some (ep, bd) =>
                  match readBits bd 6 with
                  | none => none
                  | some (ea, bd) =>
                    match readBits bd 33 with
                    | none => none
                    | some (pts, bd) =>
                      match readBits bd 8 with
                      | none => none
                      | some (cw, bd) =>
                        match readBits bd 12 with
                        | none => none
                        | some (tier, bd) =>
                          match readBits bd 12 with
                          | none => none
                          | some (cl, bd) =>
                            match readBits bd 8 with
                            | none => none
                            | some (ct, bd) =>
                              some (true,
                                { TableID := 0xfc, SectionSyntaxIndicator := ssi,
                                  Private := priv, Reserved := rsv, SectionLength := sl,
                                  ProtocolVersion := pv, EncryptedPacket := ep,
                                  EncryptionAlgorithm := ea, PtsAdjustment := (pts : Int),
                                  CwIndex := cw, Tier := tier, CommandLength := cl,
                                  CommandType := ct }, bd)
    else some (false, { TableID := tid }, bd)

/-! ## Descriptor codec

Modelled from the spec (section 4.5).  `Descriptor.Encode` produces the
payload bits that follow the 4-byte identifier; the tag, length and
identifier themselves are written by `rollLoop` in `cue.go`.  The decoder
receives the tag and the declared length, validates the identifier, and
dispatches: tag 2 is the Segmentation Descriptor layout; the spec leaves
the layouts of tags 0, 1, 3 and 4 unspecified and says unknown tags retain
raw payload bytes, so every tag other than 2 is modelled as a raw payload
of `length - 4` bytes. -/

def subSegTypes : List Nat := [0x34, 0x36, 0x38, 0x3a]

def Descriptor.Encode (d : Descriptor) : List Bool :=
  if d.Tag = 2 then
    bitsOfNat (hex2Int d.SegmentationEventID) 32 ++
    [d.SegmentationEventCancelIndicator] ++ bitsOfNat 0x7f 7 ++
    (if d.SegmentationEventCancelIndicator then [] else
      [d.ProgramSegmentationFlag, d.SegmentationDurationFlag, d.DeliveryNotRestrictedFlag] ++
      (if d.DeliveryNotRestrictedFlag then bitsOfNat 0x1f 5
       else [d.WebDeliveryAllowedFlag, d.NoRegionalBlackoutFlag, d.ArchiveAllowedFlag] ++
         bitsOfNat d.DeviceRestrictions 2) ++
      (if d.SegmentationDurationFlag then bitsOfNat d.SegmentationDuration 40 else []) ++
      bitsOfNat d.SegmentationUpidType 8 ++ bitsOfNat d.SegmentationUpid.length 8 ++
      bitsOfBytes d.SegmentationUpid ++
      bitsOfNat d.SegmentationTypeID 8 ++ bitsOfNat d.SegmentNum 8 ++
      bitsOfNat d.SegmentsExpected 8 ++
      (if isIn subSegTypes d.SegmentationTypeID then
        bitsOfNat d.SubSegmentNum 8 ++ bitsOfNat d.SubSegmentsExpected 8 else []))
  else bitsOfBytes d.Bites

def segSub (d : Descriptor) (bd : List Bool) : Option (Descriptor × List Bool) :=
  if isIn subSegTypes d.SegmentationTypeID then
    match readBits bd 8 with
    | none => none
    | some (sn, bd) =>
      match readBits bd 8 with
      | none => none
      | some (se, bd) =>
        some ({ d with SubSegmentNum := sn, SubSegmentsExpected := se }, bd)
  else some (d, bd)

def segTail (d : Descriptor) (bd : List Bool) : Option (Descriptor × List Bool) :=
  match readBits bd 8 with
  | none => none
  | some (tp, bd) =>
    match readBits bd 8 with
    | none => none
    | some (sn, bd) =>
      match readBits bd 8 with
      | none => none
      | some (se, bd) =>
        segSub { d with SegmentationTypeID := tp, SegmentNum := sn,
                        SegmentsExpected := se } bd

def segUpid (d : Descriptor) (bd : List Bool) : Option (Descriptor × List Bool) :=
  match readBits bd 8 with
  | none => none
  | some (ut, bd) =>
    match readBits bd 8 with
    | none => none
    | some (ul, bd) =>
      match readBytes bd ul with
      | none => none
      | some (u, bd) =>
        segTail { d with SegmentationUpidType := ut, SegmentationUpid := u } bd

def segDur (d : Descriptor) (bd : List Bool) : Option (Descriptor × List Bool) :=
  if d.SegmentationDurationFlag then
    match readBits bd 40 with
    | none => none
    | some (dur, bd) => segUpid { d with SegmentationDuration := dur } bd
  else segUpid d bd

def segRestrict (d : Descriptor) (bd : List Bool) : Option (Descriptor × List Bool) :=
  if d.DeliveryNotRestrictedFlag then
    match readBits bd 5 with
    | none => none
    | some (_, bd) => segDur d bd
  else
    match readBool bd with
    | none => none
    | some (web, bd) =>
      match readBool bd with
      | none => none
      | some (nrb, bd) =>
        match readBool bd with
        | none => none
        | some (arch, bd) =>
          match readBits bd 2 with
          | none => none
          | some (dr, bd) =>
            segDur { d with WebDeliveryAllowedFlag := web, NoRegionalBlackoutFlag := nrb,
                            ArchiveAllowedFlag := arch, DeviceRestrictions := dr } bd

def segBody (d : Descriptor) (bd : List Bool) : Option (Descriptor × List Bool) :=
  match readBool bd with
  | none => none
  | some (psf, bd) =>
    match readBool bd with
    | none => none
    | some (sdf, bd) =>
      match readBool bd with
      | none => none
      | some (dnr, bd) =>
        segRestrict { d with ProgramSegmentationFlag := psf,
                             SegmentationDurationFlag := sdf,
                             DeliveryNotRestrictedFlag := dnr } bd

def Descriptor.Decode (tag length : Nat) (bd : List Bool) :
    Option (Descriptor × List Bool) :=
  match readBits bd 32 with
  | none => none
  | some (ident, bd) =>
    if ident = 0x43554549 then
      if tag = 2 then
        match readBits bd 32 with
        | none => none
        | some (eid, bd) =>
          match readBool bd with
          | none => none
          | some (canc, bd) =>
            match readBits bd 7 with
            | none => none
            | some (_, bd) =>
              let d : Descriptor :=
                { Tag := 2, Name := "Segmentation Descriptor",
                  SegmentationEventID := "0x" ++ natToHex eid,
                  SegmentationEventCancelIndicator := canc }
              if canc then some (d, bd) else segBody d bd
      else
        match readBytes bd (length - 4) with
        | none => none
        | some (bs, bd) => some ({ Tag := tag, Bites := bs }, bd)
    else none

/-! ## The bit writer

Modelled from the spec (sections 4.2 and 9): the accumulator tracks the
exact bit string.  `addBytes` keeps the numeral semantics of the Go
writer's `AddBytes` (the byte string's big-endian value written into the
given bit width); at the orchestrator's call sites the width is exactly
eight times the byte count, where the two coincide (proved below).  A
value wider than its field is masked to the field width. -/

def beNat (bytes : List Nat) : Nat :=
  bytes.foldl (fun a b => 256 * a + b % 256) 0

def addBytes (bs : List Bool) (bytes : List Nat) (w : Nat) : List Bool :=
  bs ++ bitsOfNat (beNat bytes) w

/-! ## The Cue orchestrator, from `cue.go` -/

/-- One iteration of the `rollLoop` body (`cue.go` lines 83-92): the tag,
the length byte (byte length of the bumper-prefixed payload encoding,
plus 3: plus 4 for the identifier and minus 1 for the bumper), the 4-byte
identifier "CUEI" (big-endian value 0x43554549), and the payload bits. -/
def descChunk (d : Descriptor) : List Bool :=
  bitsOfNat d.Tag 8 ++
  bitsOfNat ((bytesOfBits (bitsOfNat 1 8 ++ d.Encode)).length + 3) 8 ++
  bitsOfNat 0x43554549 32 ++
  d.Encode

/-- `rollLoop` encodes the descriptor loop, following `cue.go` lines
80-95: a bumper byte keeps leading zeros, then one `descChunk` per
descriptor; the loop's byte length (total bytes minus the bumper, as a
`uint16`) is stored in `cue.Dll` and the loop bytes (bumper stripped) are
returned. -/
def Cue.rollLoop (cue : Cue) : Cue × List Nat :=
  let bits := cue.Descriptors.foldl (fun bs d => bs ++ descChunk d) (bitsOfNat 1 8)
  let bytes := bytesOfBits bits
  ({ cue with Dll := (bytes.length - 1) % 2 ^ 16 }, bytes.drop 1)

/-- The pre-checksum part of `Encode` (`cue.go` lines 109-125): encode the
command, fix `CommandLength`, `CommandType` and `SectionLength` (the
latter from the `Dll` value held *before* `rollLoop` recomputes it),
encode the header, append command bytes, the loop length and the loop
bytes.  The 16-bit truncations mirror the Go `uint16` casts
(`Dll << 3` is a `uint16` shift). -/
def Cue.encodeCore (cue : Cue) : Cue × List Bool :=
  let cmdb := cue.Command.Encode
  let cmdl := cmdb.length
  let isec := { cue.InfoSection with
    CommandLength := cmdl % 2 ^ 16,
    CommandType := cue.Command.CommandType,
    SectionLength := (11 + cmdl + 2 + 4 + cue.Dll) % 2 ^ 16 }
  let cue1 := { cue with InfoSection := isec }
  let isecb := isec.Encode
  let rl := cue1.rollLoop
  (rl.1,
    addBytes (addBytes (addBytes [] isecb (8 * isecb.length)) cmdb (8 * cmdl) ++
      bitsOfNat rl.1.Dll 16) rl.2 ((8 * rl.1.Dll) % 2 ^ 16))

/-- `Encode` (`cue.go` lines 109-129): the pre-checksum bytes, then the
32-bit checksum computed over them. -/
def Cue.Encode (cue : Cue) : Cue × List Nat :=
  let core := cue.encodeCore
  let crc := cRC32 (bytesOfBits core.2)
  ({ core.1 with Crc32 := crc }, bytesOfBits (core.2 ++ bitsOfNat crc 32))

/-- `Encode2B64` encodes the cue and returns base64 text. -/
def Cue.Encode2B64 (cue : Cue) : String × Cue :=
  (encB64 cue.Encode.2, cue.Encode.1)

/-- `Encode2Hex` encodes the cue and returns lowercase 0x-prefixed
hexadecimal text of the big-endian value of the bytes. -/
def Cue.Encode2Hex (cue : Cue) : String × Cue :=
  ("0x" ++ natToHex (beNat cue.Encode.2), cue.Encode.1)

/-- `AdjustPts` adds a signed delta to `InfoSection.PtsAdjustment` and
immediately re-runs the encode pipeline (`cue.go` lines 103-106).
Modelled from the spec insofar as the timestamp is the wire 33-bit tick
count (the Go field holds seconds, converted by the missing header
codec), so the delta is a tick count too. -/
def Cue.AdjustPts (cue : Cue) (seconds : Int) : Cue :=
  let cue1 := { cue with InfoSection := { cue.InfoSection with
    PtsAdjustment := cue.InfoSection.PtsAdjustment + seconds } }
  cue1.Encode.1

/-- The descriptor loop of `decodeBytes` (`cue.go` lines 64-78): while the
running byte counter is below the declared loop length, read a tag and a
length byte, count them plus the declared length, decode one descriptor
and append it.  The counter is a `Nat` here; the spec (section 4.6) has
the loop stop exactly at the declared length. -/
def dscptrLoop (i l : Nat) (bd : List Bool) : Bool × List Descriptor × List Bool :=
  if h : i < l then
    match readBits bd 8 with
    | none => (false, [], bd)
    | some (tag, bd1) =>
      match readBits bd1 8 with
      | none => (false, [], bd1)
      | some (length, bd2) =>
        match Descriptor.Decode tag length bd2 with
        | none => (false, [], bd2)
        | some (sdr, bd3) =>
          let r := dscptrLoop (i + 2 + length) l bd3
          (r.1, sdr :: r.2.1, r.2.2)
  else (true, [], bd)
termination_by l - i
decreasing_by omega

/-- `decodeBytes` (`cue.go` lines 48-61): replace `InfoSection` with a
freshly decoded header; on success decode the command, the loop length,
the descriptor loop (appending to the descriptor slice) and the checksum.
A bounds failure of the modelled bit cursor aborts with failure (spec
sections 4.1 and 7), leaving the fields assigned so far. -/
def Cue.decodeBytes (cue : Cue) (bites : List Nat) : Bool × Cue :=
  let bd := bitsOfBytes bites
  match InfoSection.Decode bd with
  | none => (false, { cue with InfoSection := {} })
  | some (ok, isec, bd) =>
    if ok then
      let cue1 := { cue with InfoSection := isec }
      match Command.Decode isec.CommandType bd with
      | none => (false, { cue1 with Command := {} })
      | some (cmd, bd) =>
        let cue2 := { cue1 with Command := cmd }
        match readBits bd 16 with
        | none => (false, cue2)
        | some (dll, bd) =>
          let cue3 := { cue2 with Dll := dll }
          let r := dscptrLoop 0 dll bd
          let cue4 := { cue3 with Descriptors := cue3.Descriptors ++ r.2.1 }
          if r.1 then
            match readBits r.2.2 32 with
            | none => (false, cue4)
            | some (crc, _) => (true, { cue4 with Crc32 := crc })
          else (false, cue4)
    else (false, { cue with InfoSection := isec })

/-- The two input shapes `Cue.Decode` handles: a string, or raw bytes
(the Go code type-asserts any non-string input to a byte slice). -/
inductive DecodeInput where
  | str (s : String)
  | bytes (b : List Nat)

/-- The input normalization performed by `Cue.Decode` (`cue.go` lines
31-45): a string is first scanned as a `big.Int` numeral; on success its
big-endian magnitude bytes are decoded, otherwise the string is decoded
as base64.  A non-string input is used as raw bytes. -/
def decodeNorm (i : DecodeInput) : List Nat :=
  match i with
  | .str s =>
    match sscanBigInt s with
    | some j => natBytes j.natAbs
    | none => decB64 s
  | .bytes b => b

/-- `Decode` takes cue data as bytes, base64 or a numeral string. -/
def Cue.Decode (cue : Cue) (i : DecodeInput) : Bool × Cue :=
  cue.decodeBytes (decodeNorm i)

/-- `NewCue` returns a fresh zero cue. -/
def NewCue : Cue := {}

/-- `mkSpliceInsert` (`cue.go` lines 144-161): rewrite the command into a
Splice Insert, resetting the listed flags, and re-raise
`TimeSpecifiedFlag` when the PTS is strictly positive. -/
def Cue.mkSpliceInsert (cue : Cue) : Cue :=
  let c1 := { cue.Command with
    CommandType := 5, Name := "Splice Insert",
    ProgramSpliceFlag := true,
    SpliceEventCancelIndicator := false,
    OutOfNetworkIndicator := false,
    TimeSpecifiedFlag := false,
    DurationFlag := false,
    BreakAutoReturn := false,
    SpliceImmediateFlag := false,
    AvailNum := 0, AvailExpected := 0 }
  let c2 := if 0 < c1.PTS then { c1 with TimeSpecifiedFlag := true } else c1
  { cue with Command := c2, InfoSection := { cue.InfoSection with CommandType := 5 } }

def segStarts : List Nat := [0x22, 0x30, 0x32, 0x34, 0x36, 0x38, 0x3a, 0x3c, 0x3e, 0x44, 0x46]

def segStops : List Nat := [0x23, 0x31, 0x33, 0x35, 0x37, 0x39, 0x3b, 0x3d, 0x3f, 0x45, 0x47]

/-- One iteration of the `Six2Five` descriptor scan (`cue.go` lines
171-189): for a Segmentation Descriptor the splice event identifier is
overwritten (the Go `uint32` cast of the parsed eventID), then a start
type with the duration flag set converts the command to a Splice Insert
with out-of-network, duration and auto-return set and the descriptor's
duration, while a stop type converts with the flags left reset. -/
def sixStep (cue : Cue) (dscptr : Descriptor) : Cue :=
  if dscptr.Tag = 2 then
    let cue1 := { cue with Command := { cue.Command with
      SpliceEventID := hex2Int dscptr.SegmentationEventID % 2 ^ 32 } }
    if isIn segStarts dscptr.SegmentationTypeID then
      if dscptr.SegmentationDurationFlag then
        let cue2 := cue1.mkSpliceInsert
        { cue2 with Command := { cue2.Command with
          OutOfNetworkIndicator := true, DurationFlag := true,
          BreakAutoReturn := true, BreakDuration := dscptr.SegmentationDuration } }
      else cue1
    else
      if isIn segStops dscptr.SegmentationTypeID then cue1.mkSpliceInsert else cue1
  else cue

/-- `Six2Five` (`cue.go` lines 167-192): when the cue is a Time Signal,
scan the descriptors with `sixStep`; in every case re-encode and return
the base64 text of the fresh encoding together with the final cue
state. -/
def Cue.Six2Five (cue : Cue) : String × Cue :=
  let cue1 := if cue.InfoSection.CommandType = 6 then
    cue.Descriptors.foldl sixStep cue else cue
  (encB64 cue1.Encode.2, cue1.Encode.1)

/-! ## Structure of the encoder output -/

/-- Wire byte length of one encoded descriptor: tag, length byte, 4-byte
identifier, payload. -/
def descWireLen (d : Descriptor) : Nat :=
  6 + (Descriptor.Encode d).length / 8

/-- Wire byte length of the whole descriptor loop. -/
def loopLen (ds : List Descriptor) : Nat :=
  (ds.map descWireLen).sum

/-- The bit string of the descriptor loop (without the bumper). -/
def loopBits (ds : List Descriptor) : List Bool :=
  (ds.map descChunk).flatten

/-- The cue exhibiting the stale-`Dll` section length: a Time Signal with
one raw descriptor built by a caller, `Dll` still zero. -/
def staleDllCue : Cue :=
  { InfoSection := { TableID := 0xfc },
    Command := { CommandType := 6, Name := "Time Signal" },
    Descriptors := [{ Tag := 0x7f, Bites := [0xaa, 0xbb] }] }

/-! ## The Six2Five converter -/

/-- A Segmentation Descriptor whose type is in neither the start nor the
stop set. -/
def sixNoOpDesc : Descriptor :=
  { Tag := 2, Name := "Segmentation Descriptor",
    SegmentationEventID := "0x2", SegmentationTypeID := 0x01 }

/-- The cue refuting the no-op claim: a Time Signal carrying only
`sixNoOpDesc`. -/
def sixNoOpCue : Cue :=
  { InfoSection := { TableID := 0xfc, CommandType := 6 },
    Command := { CommandType := 6, Name := "Time Signal" },
    Descriptors := [sixNoOpDesc] }

/-- A start-set Segmentation Descriptor (type 0x22, duration flag set). -/
def startDesc : Descriptor :=
  { Tag := 2, Name := "Segmentation Descriptor",
    SegmentationEventID := "0x1", SegmentationTypeID := 0x22,
    SegmentationDurationFlag := true, DeliveryNotRestrictedFlag := true,
    SegmentationDuration := 90000 }

/-- A Time-Signal cue whose PTS is present (flag set) but zero. -/
def ptsZeroCue : Cue :=
  { InfoSection := { TableID := 0xfc, CommandType := 6 },
    Command := { CommandType := 6, Name := "Time Signal",
                 TimeSpecifiedFlag := true, PTS := 0 },
    Descriptors := [startDesc] }

/-- A Time-Signal cue with a positive PTS and the unique start
descriptor, the witness input for the amended conversion theorem. -/
def startConvCue : Cue :=
  { InfoSection := { TableID := 0xfc, CommandType := 6 },
    Command := { CommandType := 6, Name := "Time Signal",
                 TimeSpecifiedFlag := true, PTS := 90000 },
    Descriptors := [startDesc] }

/-! ## Decode failure behaviour -/

/-- A cue already holding decoded data, about to be reused for a second
decode. -/
def preloadedCue : Cue :=
  { InfoSection := { TableID := 0xfc, SectionLength := 42 },
    Command := { CommandType := 6, Name := "Time Signal" },
    Dll := 7, Crc32 := 99 }

/-! ## Input normalization -/

/-- One hexadecimal digit character test, used only to phrase the spec's
wording of the input heuristic. -/
def isHexDigit (c : Char) : Bool :=
  (48 ≤ c.toNat && c.toNat ≤ 57) || (97 ≤ c.toNat && c.toNat ≤ 102) ||
    (65 ≤ c.toNat && c.toNat ≤ 70)

/-- Follows the spec's words, for the refinement comparison (spec
sections 4.6 and 6): normalize "by first attempting a hexadecimal-numeral
parse", where "hexadecimal ASCII text (optionally 0x-prefixed)" is
accepted; else treat the string as base64; a non-string input is raw
bytes. -/
def specHexFirstNorm (i : DecodeInput) : List Nat :=
  match i with
  | .str s =>
    let cs := match s.data with
      | '0' :: 'x' :: rest => rest
      | '0' :: 'X' :: rest => rest
      | cs => cs
    if cs ≠ [] ∧ cs.all isHexDigit then natBytes (hexVal cs) else decB64 s
  | .bytes b => b

/-! ## The decoded image of an encoded cue

Decoding the bytes `Encode` produces yields the original fields
canonicalized: values reduced modulo their wire widths, flag-gated fields
zeroed when their flag is off, and names set by the decoder.  The
functions below compute that image; the round-trip theorems show the
decoder produces exactly it. -/

def canonST (q : Bool × Nat) : Bool × Nat :=
  (q.1, if q.1 then q.2 % 2 ^ 33 else 0)

def canonInfoSection (i : InfoSection) : InfoSection :=
  { TableID := i.TableID % 256,
    SectionSyntaxIndicator := i.SectionSyntaxIndicator,
    Private := i.Private,
    Reserved := i.Reserved % 4,
    SectionLength := i.SectionLength % 2 ^ 12,
    ProtocolVersion := i.ProtocolVersion % 256,
    EncryptedPacket := i.EncryptedPacket,
    EncryptionAlgorithm := i.EncryptionAlgorithm % 64,
    PtsAdjustment := ((i.PtsAdjustment.emod (2 ^ 33)).toNat : Int),
    CwIndex := i.CwIndex % 256,
    Tier := i.Tier % 2 ^ 12,
    CommandLength := i.CommandLength % 2 ^ 12,
    CommandType := i.CommandType % 256 }

def canonCommand (c : Command) : Command :=
  match c.CommandType with
  | 5 =>
    if c.SpliceEventCancelIndicator then
      { CommandType := 5, Name := "Splice Insert",
        SpliceEventID := c.SpliceEventID % 2 ^ 32,
        SpliceEventCancelIndicator := true }
    else
      { CommandType := 5, Name := "Splice Insert",
        SpliceEventID := c.SpliceEventID % 2 ^ 32,
        SpliceEventCancelIndicator := false,
        OutOfNetworkIndicator := c.OutOfNetworkIndicator,
        ProgramSpliceFlag := c.ProgramSpliceFlag,
        DurationFlag := c.DurationFlag,
        SpliceImmediateFlag := c.SpliceImmediateFlag,
        TimeSpecifiedFlag :=
          if c.ProgramSpliceFlag && !c.SpliceImmediateFlag then c.TimeSpecifiedFlag
          else false,
        PTS :=
          if c.ProgramSpliceFlag && !c.SpliceImmediateFlag then
            (if c.TimeSpecifiedFlag then c.PTS % 2 ^ 33 else 0)
          else 0,
        Components := if c.ProgramSpliceFlag then [] else c.Components.map canonST,
        BreakAutoReturn := if c.DurationFlag then c.BreakAutoReturn else false,
        BreakDuration := if c.DurationFlag then c.BreakDuration % 2 ^ 33 else 0,
        AvailNum := c.AvailNum % 256,
        AvailExpected := c.AvailExpected % 256 }
  | 6 =>
    { CommandType := 6, Name := "Time Signal",
      TimeSpecifiedFlag := c.TimeSpecifiedFlag,
      PTS := if c.TimeSpecifiedFlag then c.PTS % 2 ^ 33 else 0 }
  | t => { CommandType := t, Name := cmdName t }

def canonDescriptor (d : Descriptor) : Descriptor :=
  if d.Tag = 2 then
    if d.SegmentationEventCancelIndicator then
      { Tag := 2, Name := "Segmentation Descriptor",
        SegmentationEventID := "0x" ++ natToHex (hex2Int d.SegmentationEventID % 2 ^ 32),
        SegmentationEventCancelIndicator := true }
    else
      { Tag := 2, Name := "Segmentation Descriptor",
        SegmentationEventID := "0x" ++ natToHex (hex2Int d.SegmentationEventID % 2 ^ 32),
        SegmentationEventCancelIndicator := false,
        ProgramSegmentationFlag := d.ProgramSegmentationFlag,
        SegmentationDurationFlag := d.SegmentationDurationFlag,
        DeliveryNotRestrictedFlag := d.DeliveryNotRestrictedFlag,
        WebDeliveryAllowedFlag :=
          if d.DeliveryNotRestrictedFlag then false else d.WebDeliveryAllowedFlag,
        NoRegionalBlackoutFlag :=
          if d.DeliveryNotRestrictedFlag then false else d.NoRegionalBlackoutFlag,
        ArchiveAllowedFlag :=
          if d.DeliveryNotRestrictedFlag then false else d.ArchiveAllowedFlag,
        DeviceRestrictions :=
          if d.DeliveryNotRestrictedFlag then 0 else d.DeviceRestrictions % 4,
        SegmentationDuration :=
          if d.SegmentationDurationFlag then d.SegmentationDuration % 2 ^ 40 else 0,
        SegmentationUpidType := d.SegmentationUpidType % 256,
        SegmentationUpid := d.SegmentationUpid.map (· % 256),
        SegmentationTypeID := d.SegmentationTypeID % 256,
        SegmentNum := d.SegmentNum % 256,
        SegmentsExpected := d.SegmentsExpected % 256,
        SubSegmentNum :=
          if isIn subSegTypes (d.SegmentationTypeID % 256) then d.SubSegmentNum % 256
          else 0,
        SubSegmentsExpected :=
          if isIn subSegTypes (d.SegmentationTypeID % 256) then d.SubSegmentsExpected % 256
          else 0 }
  else { Tag := d.Tag % 256, Bites := d.Bites.map (· % 256) }

/-- Structural bounds under which the encoded wire image is
well-delimited: the tag and (for Segmentation Descriptors) the type and
UPID length fit their single-byte fields, and the payload fits the
single-byte length field. -/
def Descriptor.encReady (d : Descriptor) : Bool :=
  decide (d.Tag < 256 ∧ (Descriptor.Encode d).length / 8 ≤ 251 ∧
    (d.Tag = 2 → d.SegmentationTypeID < 256 ∧ d.SegmentationUpid.length < 256))

/-- Structural bounds under which decoding the bytes produced by `Encode`
succeeds: the table identifier is the expected constant, the command type
fits its byte (with a bounded component list for a Splice Insert), every
descriptor is well-delimited and the descriptor loop fits the 16-bit
arithmetic of the encoder. -/
def Cue.encodeReady (c : Cue) : Bool :=
  decide (c.InfoSection.TableID = 0xfc ∧ c.Command.CommandType < 256 ∧
    (c.Command.CommandType = 5 → c.Command.Components.length < 256) ∧
    (∀ d ∈ c.Descriptors, Descriptor.encReady d = true) ∧
    loopLen c.Descriptors < 8192)

/-- The header record as `Encode` finalizes it before serializing: command
length and type filled in, and the section length computed from the `Dll`
value held before `rollLoop` updates it. -/
def encHeader (c : Cue) : InfoSection :=
  { c.InfoSection with
    CommandLength := (c.Command.Encode).length % 2 ^ 16,
    CommandType := c.Command.CommandType,
    SectionLength := (11 + (c.Command.Encode).length + 2 + 4 + c.Dll) % 2 ^ 16 }

/-- A 21-byte Time Signal message whose header and command are conformant
but whose trailing 4 checksum bytes are corrupted (`0xdeadbeef`): the
decoder verifies neither the checksum nor the section length, so decoding
it succeeds. -/
def c2Bytes : List Nat :=
  [0xfc, 0x30, 0x12, 0x00, 0x00, 0x00, 0x00, 0x00, 0x00, 0x00, 0xff, 0xf0, 0x01,
   0x06, 0x7f, 0x00, 0x00, 0xde, 0xad, 0xbe, 0xef]

/-- The cue state a successful decode of `c2Bytes` produces: every field
canonical and consistent except the checksum, which holds the corrupted
wire value. -/
def c2X : Cue :=
  { InfoSection :=
    { TableID := 0xfc, SectionSyntaxIndicator := false, Private := false,
      Reserved := 3, SectionLength := 0x012, ProtocolVersion := 0,
      EncryptedPacket := false, EncryptionAlgorithm := 0, PtsAdjustment := 0,
      CwIndex := 0, Tier := 0xfff, CommandLength := 1, CommandType := 6 },
    Command :=
    { CommandType := 6, Name := "Time Signal",
      TimeSpecifiedFlag := false, PTS := 0 },
    Dll := 0,
    Descriptors := [],
    PacketData := none,
    Crc32 := 0xdeadbeef }

/-- A canonical, consistent Time Signal cue with a PTS and one
Segmentation Descriptor, used to witness the round-trip theorem. -/
def c2WitDesc : Descriptor :=
  { Tag := 2, Name := "Segmentation Descriptor",
    SegmentationEventID := "0x30",
    SegmentationEventCancelIndicator := false,
    ProgramSegmentationFlag := true,
    SegmentationDurationFlag := true,
    DeliveryNotRestrictedFlag := true,
    SegmentationDuration := 2700000,
    SegmentationUpidType := 8,
    SegmentationUpid := [1, 2, 3],
    SegmentationTypeID := 0x30,
    SegmentNum := 1,
    SegmentsExpected := 1 }

def c2WitBase : Cue :=
  { InfoSection :=
    { TableID := 0xfc, SectionSyntaxIndicator := false, Private := false,
      Reserved := 3, SectionLength := 47, ProtocolVersion := 0,
      EncryptedPacket := false, EncryptionAlgorithm := 0, PtsAdjustment := 0,
      CwIndex := 255, Tier := 0xfff, CommandLength := 5, CommandType := 6 },
    Command :=
    { CommandType := 6, Name := "Time Signal",
      TimeSpecifiedFlag := true, PTS := 1234567 },
    Dll := 25,
    Descriptors := [c2WitDesc],
    PacketData := none,
    Crc32 := 0 }

def c2Wit : Cue :=
  { c2WitBase with Crc32 := 4192417464 }

/-- A simple consistent Time Signal cue for the `AdjustPts` witness. -/
def c9Wit : Cue :=
  { InfoSection :=
    { TableID := 0xfc, SectionLength := 23, Reserved := 3, PtsAdjustment := 1000,
      Tier := 0xfff, CommandLength := 5, CommandType := 6 },
    Command :=
    { CommandType := 6, Name := "Time Signal",
      TimeSpecifiedFlag := true, PTS := 77 },
    Dll := 0 }

/-! ## Theorems -/

theorem length_bitsOfNat (n w : Nat) : (bitsOfNat n w).length = w := by
  induction w with
  | zero => rfl
  | succ w ih => simp [bitsOfNat, ih]

theorem natOfBits_acc (bs : List Bool) : ∀ a : Nat,
    bs.foldl (fun a b => 2 * a + (if b then 1 else 0)) a
      = a * 2 ^ bs.length + natOfBits bs := by
  induction bs with
  | nil => intro a; simp [natOfBits]
  | cons b bs ih =>
    intro a
    simp only [List.foldl_cons, List.length_cons, natOfBits]
    rw [ih, ih (2 * 0 + if b then 1 else 0)]
    ring

theorem natOfBits_cons (b : Bool) (bs : List Bool) :
    natOfBits (b :: bs) = (if b then 1 else 0) * 2 ^ bs.length + natOfBits bs := by
  show (b :: bs).foldl _ 0 = _
  rw [List.foldl_cons, natOfBits_acc]
  simp

theorem natOfBits_lt (bs : List Bool) : natOfBits bs < 2 ^ bs.length := by
  induction bs with
  | nil => simp [natOfBits]
  | cons b bs ih =>
    rw [natOfBits_cons]
    have h1 : (if b then 1 else 0) * 2 ^ bs.length ≤ 2 ^ bs.length := by
      split <;> simp
    simp only [List.length_cons, pow_succ]
    omega

theorem natOfBits_append (xs ys : List Bool) :
    natOfBits (xs ++ ys) = natOfBits xs * 2 ^ ys.length + natOfBits ys := by
  show (xs ++ ys).foldl _ 0 = _
  rw [List.foldl_append, natOfBits_acc]
  rfl

theorem natOfBits_bitsOfNat (n w : Nat) : natOfBits (bitsOfNat n w) = n % 2 ^ w := by
  induction w with
  | zero => simp [bitsOfNat, natOfBits, Nat.mod_one]
  | succ w ih =>
    rw [bitsOfNat, natOfBits_cons, length_bitsOfNat, ih]
    rw [Nat.testBit_to_div_mod]
    rw [pow_succ, Nat.mod_mul]
    rcases Nat.mod_two_eq_zero_or_one (n / 2 ^ w) with h | h <;> (simp [h]; try omega)

theorem bitsOfNat_mod (w : Nat) : ∀ n, bitsOfNat (n % 2 ^ w) w = bitsOfNat n w := by
  induction w with
  | zero => intro n; rfl
  | succ w ih =>
    intro n
    rw [bitsOfNat, bitsOfNat]
    congr 1
    · rw [Nat.testBit_mod_two_pow]
      simp [Nat.lt_succ_self]
    · calc bitsOfNat (n % 2 ^ (w + 1)) w
          = bitsOfNat (n % 2 ^ (w + 1) % 2 ^ w) w := (ih _).symm
        _ = bitsOfNat (n % 2 ^ w) w := by
            rw [Nat.mod_mod_of_dvd _ (pow_dvd_pow 2 (Nat.le_succ w))]
        _ = bitsOfNat n w := ih n

theorem bitsOfNat_natOfBits (bs : List Bool) : bitsOfNat (natOfBits bs) bs.length = bs := by
  induction bs with
  | nil => rfl
  | cons b bs ih =>
    have hlt := natOfBits_lt bs
    have hpos : (0:Nat) < 2 ^ bs.length := Nat.pos_pow_of_pos _ (by omega)
    rw [natOfBits_cons, List.length_cons, bitsOfNat]
    have hdiv : ((if b then 1 else 0) * 2 ^ bs.length + natOfBits bs) / 2 ^ bs.length
        = (if b then 1 else 0) := by
      rw [Nat.add_comm, Nat.add_mul_div_right _ _ hpos, Nat.div_eq_of_lt hlt]
      simp
    have hmod : ((if b then 1 else 0) * 2 ^ bs.length + natOfBits bs) % 2 ^ bs.length
        = natOfBits bs := by
      rw [Nat.add_comm, Nat.add_mul_mod_self_right, Nat.mod_eq_of_lt hlt]
    congr 1
    · rw [Nat.testBit_to_div_mod, hdiv]
      cases b <;> simp
    · rw [← bitsOfNat_mod, hmod, ih]

theorem readBits_exact (bs rest : List Bool) (w : Nat) (h : bs.length = w) :
    readBits (bs ++ rest) w = some (natOfBits bs, rest) := by
  subst h
  rw [readBits, if_pos (by simp)]
  rw [List.take_left, List.drop_left]

theorem readBits_bitsOfNat (n w : Nat) (rest : List Bool) :
    readBits (bitsOfNat n w ++ rest) w = some (n % 2 ^ w, rest) := by
  rw [readBits_exact _ _ _ (length_bitsOfNat n w), natOfBits_bitsOfNat]

theorem readBool_cons (b : Bool) (rest : List Bool) :
    readBool (b :: rest) = some (b, rest) := by
  have : ([b] : List Bool) ++ rest = b :: rest := rfl
  rw [readBool, ← this, readBits_exact [b] rest 1 rfl]
  cases b <;> rfl

/-- Induction over byte-aligned bit strings, eight bits at a time. -/
theorem byteAligned_induction {P : List Bool → Prop} (h0 : P [])
    (hcons : ∀ b0 b1 b2 b3 b4 b5 b6 b7 rest, 8 ∣ rest.length → P rest →
      P (b0 :: b1 :: b2 :: b3 :: b4 :: b5 :: b6 :: b7 :: rest)) :
    ∀ bs : List Bool, 8 ∣ bs.length → P bs := by
  intro bs
  induction bs using bytesOfBits.induct with
  | case1 b0 b1 b2 b3 b4 b5 b6 b7 rest ih =>
    intro h
    have h8 : 8 ∣ rest.length := by
      simp only [List.length_cons] at h; omega
    exact hcons _ _ _ _ _ _ _ _ _ h8 (ih h8)
  | case2 xs hne =>
    intro h
    match xs, hne with
    | [], _ => exact h0
    | [a], hne => simp at h
    | [a,b], hne => simp at h; omega
    | [a,b,c], hne => simp at h; omega
    | [a,b,c,d], hne => simp at h; omega
    | [a,b,c,d,e], hne => simp at h; omega
    | [a,b,c,d,e,f], hne => simp at h; omega
    | [a,b,c,d,e,f,g], hne => simp at h; omega
    | b0::b1::b2::b3::b4::b5::b6::b7::rest, hne =>
      exact absurd rfl (hne b0 b1 b2 b3 b4 b5 b6 b7 rest)

theorem bytesOfBits_cons8 (b0 b1 b2 b3 b4 b5 b6 b7 : Bool) (rest : List Bool) :
    bytesOfBits (b0 :: b1 :: b2 :: b3 :: b4 :: b5 :: b6 :: b7 :: rest)
      = natOfBits [b0, b1, b2, b3, b4, b5, b6, b7] :: bytesOfBits rest := rfl

theorem bytesOfBits_append (ys : List Bool) :
    ∀ xs : List Bool, 8 ∣ xs.length →
      bytesOfBits (xs ++ ys) = bytesOfBits xs ++ bytesOfBits ys := by
  apply byteAligned_induction
  · rfl
  · intro b0 b1 b2 b3 b4 b5 b6 b7 rest _ ih
    simp only [List.cons_append, bytesOfBits_cons8]
    rw [ih]

theorem bitsOfBytes_nil : bitsOfBytes [] = [] := rfl

theorem bitsOfBytes_cons (b : Nat) (bs : List Nat) :
    bitsOfBytes (b :: bs) = bitsOfNat b 8 ++ bitsOfBytes bs := rfl

theorem bitsOfBytes_append (xs ys : List Nat) :
    bitsOfBytes (xs ++ ys) = bitsOfBytes xs ++ bitsOfBytes ys := by
  induction xs with
  | nil => rfl
  | cons b bs ih => simp [bitsOfBytes_cons, ih]

theorem bitsOfBytes_bytesOfBits :
    ∀ bs : List Bool, 8 ∣ bs.length → bitsOfBytes (bytesOfBits bs) = bs := by
  apply byteAligned_induction
  · rfl
  · intro b0 b1 b2 b3 b4 b5 b6 b7 rest _ ih
    rw [bytesOfBits_cons8, bitsOfBytes_cons, ih]
    have h8 : ([b0,b1,b2,b3,b4,b5,b6,b7] : List Bool).length = 8 := rfl
    conv_lhs => rw [← h8, bitsOfNat_natOfBits]
    rfl

theorem length_bytesOfBits :
    ∀ bs : List Bool, 8 ∣ bs.length → (bytesOfBits bs).length = bs.length / 8 := by
  apply byteAligned_induction
  · rfl
  · intro b0 b1 b2 b3 b4 b5 b6 b7 rest _ ih
    rw [bytesOfBits_cons8]
    simp only [List.length_cons]
    omega

theorem bytesOfBits_lt (bs : List Bool) : ∀ b ∈ bytesOfBits bs, b < 256 := by
  induction bs using bytesOfBits.induct with
  | case1 b0 b1 b2 b3 b4 b5 b6 b7 rest ih =>
    intro b hb
    rw [bytesOfBits_cons8] at hb
    rcases List.mem_cons.mp hb with rfl | hb
    · simpa using natOfBits_lt [b0,b1,b2,b3,b4,b5,b6,b7]
    · exact ih b hb
  | case2 xs hne =>
    match xs, hne with
    | [], _ => intro b hb; simp [bytesOfBits] at hb
    | [a], hne => intro b hb; simp [bytesOfBits] at hb
    | [a,b'], hne => intro b hb; simp [bytesOfBits] at hb
    | [a,b',c], hne => intro b hb; simp [bytesOfBits] at hb
    | [a,b',c,d], hne => intro b hb; simp [bytesOfBits] at hb
    | [a,b',c,d,e], hne => intro b hb; simp [bytesOfBits] at hb
    | [a,b',c,d,e,f], hne => intro b hb; simp [bytesOfBits] at hb
    | [a,b',c,d,e,f,g], hne => intro b hb; simp [bytesOfBits] at hb
    | b0::b1::b2::b3::b4::b5::b6::b7::rest, hne =>
      exact absurd rfl (hne b0 b1 b2 b3 b4 b5 b6 b7 rest)

theorem hexVal_append_digit (xs : List Char) (c : Char) :
    hexVal (xs ++ [c]) = 16 * hexVal xs + hexDigitVal c := by
  show (xs ++ [c]).foldl _ 0 = _
  rw [List.foldl_append]
  rfl

theorem hexDigitVal_hexChar : ∀ d < 16, hexDigitVal (hexChar d) = d := by decide

theorem hexVal_hexDigitsRevAux (fuel : Nat) : ∀ n, n ≤ fuel →
    hexVal (hexDigitsRevAux fuel n).reverse = n := by
  induction fuel with
  | zero =>
    intro n hn
    have : n = 0 := by omega
    subst this
    rfl
  | succ fuel ih =>
    intro n hn
    by_cases h : n = 0
    · subst h
      rw [hexDigitsRevAux, if_pos rfl]
      rfl
    · rw [hexDigitsRevAux, if_neg h]
      rw [List.reverse_cons, hexVal_append_digit]
      have hdiv : n / 16 ≤ fuel := by
        have := Nat.div_lt_self (Nat.pos_of_ne_zero h) (show (1:Nat) < 16 by omega)
        omega
      rw [ih (n / 16) hdiv]
      rw [hexDigitVal_hexChar (n % 16) (Nat.mod_lt n (by omega))]
      omega

theorem hexVal_hexDigitsRev (n : Nat) : hexVal (hexDigitsRev n).reverse = n :=
  hexVal_hexDigitsRevAux n n (le_refl n)

theorem hex2Int_natToHex (n : Nat) : hex2Int ("0x" ++ natToHex n) = n := by
  by_cases h : n = 0
  · subst h; rfl
  · have hd : ("0x" ++ natToHex n).data = '0' :: 'x' :: (hexDigitsRev n).reverse := by
      rw [natToHex, if_neg h]
      rfl
    rw [hex2Int, hd]
    exact hexVal_hexDigitsRev n

theorem readSpliceTime_spec (tsf : Bool) (pts : Nat) (rest : List Bool) :
    readSpliceTime (spliceTimeBits tsf pts ++ rest)
      = some ((tsf, if tsf then pts % 2 ^ 33 else 0), rest) := by
  cases tsf with
  | false =>
    rw [spliceTimeBits, if_neg (by simp), readSpliceTime, List.cons_append, readBool_cons]
    simp only [Bool.false_eq_true, if_false, readBits_bitsOfNat]
  | true =>
    rw [spliceTimeBits, if_pos rfl, readSpliceTime, List.cons_append, readBool_cons]
    simp only [if_true, List.append_assoc, readBits_bitsOfNat]

theorem length_spliceTimeBits (tsf : Bool) (pts : Nat) :
    (spliceTimeBits tsf pts).length = if tsf then 40 else 8 := by
  cases tsf <;> simp [spliceTimeBits, length_bitsOfNat]

theorem beNat_acc (bytes : List Nat) : ∀ a : Nat,
    bytes.foldl (fun a b => 256 * a + b % 256) a
      = a * 256 ^ bytes.length + beNat bytes := by
  induction bytes with
  | nil => intro a; simp [beNat]
  | cons b bs ih =>
    intro a
    simp only [List.foldl_cons, List.length_cons, beNat]
    rw [ih, ih (256 * 0 + b % 256)]
    ring

theorem beNat_cons (b : Nat) (bs : List Nat) :
    beNat (b :: bs) = (b % 256) * 256 ^ bs.length + beNat bs := by
  show (b :: bs).foldl _ 0 = _
  rw [List.foldl_cons, beNat_acc]
  simp

theorem beNat_lt (bytes : List Nat) : beNat bytes < 256 ^ bytes.length := by
  induction bytes with
  | nil => simp [beNat]
  | cons b bs ih =>
    rw [beNat_cons]
    have h1 : (b % 256) * 256 ^ bs.length ≤ 255 * 256 ^ bs.length :=
      Nat.mul_le_mul_right _ (by omega)
    simp only [List.length_cons, pow_succ]
    omega

theorem bitsOfNat_split (x y v w : Nat) (hx : x < 2 ^ v) (hy : y < 2 ^ w) :
    bitsOfNat (x * 2 ^ w + y) (v + w) = bitsOfNat x v ++ bitsOfNat y w := by
  have hlen : (bitsOfNat x v ++ bitsOfNat y w).length = v + w := by
    simp [length_bitsOfNat]
  have hval : natOfBits (bitsOfNat x v ++ bitsOfNat y w) = x * 2 ^ w + y := by
    rw [natOfBits_append, natOfBits_bitsOfNat, natOfBits_bitsOfNat, length_bitsOfNat,
      Nat.mod_eq_of_lt hx, Nat.mod_eq_of_lt hy]
  calc bitsOfNat (x * 2 ^ w + y) (v + w)
      = bitsOfNat (natOfBits (bitsOfNat x v ++ bitsOfNat y w))
          (bitsOfNat x v ++ bitsOfNat y w).length := by rw [hval, hlen]
    _ = bitsOfNat x v ++ bitsOfNat y w := bitsOfNat_natOfBits _

theorem two_pow_eight_mul (n : Nat) : (256 : Nat) ^ n = 2 ^ (8 * n) := by
  rw [pow_mul]
  norm_num

theorem bitsOfNat_beNat (bytes : List Nat) :
    bitsOfNat (beNat bytes) (8 * bytes.length) = bitsOfBytes (bytes.map (· % 256)) := by
  induction bytes with
  | nil => rfl
  | cons b bs ih =>
    have hx : b % 256 < 2 ^ 8 := by omega
    have hy : beNat bs < 2 ^ (8 * bs.length) := by
      rw [← two_pow_eight_mul]; exact beNat_lt bs
    rw [beNat_cons, List.length_cons]
    have h85 : 8 * (bs.length + 1) = 8 + 8 * bs.length := by ring
    rw [h85, two_pow_eight_mul bs.length]
    rw [bitsOfNat_split (b % 256) (beNat bs) 8 (8 * bs.length) hx
      (by rw [← two_pow_eight_mul]; exact beNat_lt bs)]
    rw [ih]
    rfl

theorem map_mod_of_lt (bytes : List Nat) (h : ∀ b ∈ bytes, b < 256) :
    bytes.map (· % 256) = bytes := by
  induction bytes with
  | nil => rfl
  | cons b bs ih =>
    simp only [List.map_cons]
    rw [Nat.mod_eq_of_lt (h b (by simp)), ih (fun x hx => h x (by simp [hx]))]

theorem addBytes_exact (bs : List Bool) (bytes : List Nat)
    (h : ∀ b ∈ bytes, b < 256) :
    addBytes bs bytes (8 * bytes.length) = bs ++ bitsOfBytes bytes := by
  rw [addBytes, bitsOfNat_beNat, map_mod_of_lt bytes h]

theorem length_bitsOfBytes (bs : List Nat) : (bitsOfBytes bs).length = 8 * bs.length := by
  induction bs with
  | nil => rfl
  | cons b rest ih =>
    rw [bitsOfBytes_cons]
    simp only [List.length_append, length_bitsOfNat, List.length_cons, ih]
    ring

theorem dvd_length_descriptorEncode (d : Descriptor) :
    8 ∣ (Descriptor.Encode d).length := by
  rw [Descriptor.Encode]
  split_ifs <;>
    simp [List.length_append, length_bitsOfNat, length_bitsOfBytes] <;> omega

theorem dvd_length_spliceTimeBits (f : Bool) (p : Nat) :
    8 ∣ (spliceTimeBits f p).length := by
  rw [length_spliceTimeBits]
  split <;> omega

theorem dvd_length_compsBits (comps : List (Bool × Nat)) :
    8 ∣ ((comps.map (fun q => spliceTimeBits q.1 q.2)).flatten).length := by
  rw [List.length_flatten]
  apply List.dvd_sum
  intro x hx
  simp only [List.map_map, List.mem_map] at hx
  obtain ⟨q, _, rfl⟩ := hx
  exact dvd_length_spliceTimeBits q.1 q.2

theorem dvd_length_commandBits (c : Command) : 8 ∣ (Command.bits c).length := by
  rw [Command.bits]
  split
  · obtain ⟨k1, hk1⟩ := dvd_length_compsBits c.Components
    obtain ⟨k2, hk2⟩ := dvd_length_spliceTimeBits c.TimeSpecifiedFlag c.PTS
    split_ifs <;>
      simp only [List.length_append, length_bitsOfNat, List.length_cons,
        List.length_nil] <;>
      omega
  · obtain ⟨k, hk⟩ := dvd_length_spliceTimeBits c.TimeSpecifiedFlag c.PTS
    omega
  · simp

theorem dvd_length_commandEncode_bits (c : Command) :
    (Command.Encode c).length = (Command.bits c).length / 8 := by
  rw [Command.Encode]
  exact length_bytesOfBits _ (dvd_length_commandBits c)

theorem length_infoSectionBits (i : InfoSection) : (InfoSection.bits i).length = 112 := by
  simp [InfoSection.bits, length_bitsOfNat]

theorem length_infoSectionEncode (i : InfoSection) : (InfoSection.Encode i).length = 14 := by
  rw [InfoSection.Encode, length_bytesOfBits _ (by rw [length_infoSectionBits]; omega),
    length_infoSectionBits]

theorem foldl_append_flatten {α β : Type} (f : α → List β) (ds : List α) :
    ∀ init : List β,
      ds.foldl (fun bs d => bs ++ f d) init = init ++ (ds.map f).flatten := by
  induction ds with
  | nil => intro init; simp
  | cons d ds ih =>
    intro init
    simp only [List.foldl_cons, List.map_cons, List.flatten_cons, ih]
    simp [List.append_assoc]

theorem length_descChunk (d : Descriptor) :
    (descChunk d).length = 8 * descWireLen d := by
  obtain ⟨k, hk⟩ := dvd_length_descriptorEncode d
  rw [descChunk, descWireLen]
  simp only [List.length_append, length_bitsOfNat, hk]
  omega

theorem length_loopBits (ds : List Descriptor) :
    (loopBits ds).length = 8 * loopLen ds := by
  induction ds with
  | nil => rfl
  | cons d ds ih =>
    have hl : loopLen (d :: ds) = descWireLen d + loopLen ds := by
      simp [loopLen]
    rw [loopBits, List.map_cons, List.flatten_cons, List.length_append,
      ← loopBits, ih, length_descChunk, hl]
    ring

theorem length_bytesOfBits_loop (ds : List Descriptor) :
    (bytesOfBits (loopBits ds)).length = loopLen ds := by
  rw [length_bytesOfBits _ (by rw [length_loopBits]; omega), length_loopBits]
  omega

theorem rollLoop_spec (cue : Cue) :
    cue.rollLoop = ({ cue with Dll := loopLen cue.Descriptors % 2 ^ 16 },
      bytesOfBits (loopBits cue.Descriptors)) := by
  rw [Cue.rollLoop]
  rw [foldl_append_flatten descChunk cue.Descriptors (bitsOfNat 1 8), ← loopBits]
  rw [bytesOfBits_append _ (bitsOfNat 1 8) (by rw [length_bitsOfNat])]
  have hone : bytesOfBits (bitsOfNat 1 8) = [1] := by decide
  rw [hone, List.singleton_append, List.length_cons, Nat.add_sub_cancel,
    length_bytesOfBits_loop, List.drop_succ_cons, List.drop_zero]

theorem encodeCore_state (cue : Cue) : (cue.encodeCore).1 =
    { cue with
      InfoSection := { cue.InfoSection with
        CommandLength := (cue.Command.Encode).length % 2 ^ 16,
        CommandType := cue.Command.CommandType,
        SectionLength := (11 + (cue.Command.Encode).length + 2 + 4 + cue.Dll) % 2 ^ 16 },
      Dll := loopLen cue.Descriptors % 2 ^ 16 } := by
  show (Cue.rollLoop { cue with InfoSection := { cue.InfoSection with
      CommandLength := (cue.Command.Encode).length % 2 ^ 16,
      CommandType := cue.Command.CommandType,
      SectionLength := (11 + (cue.Command.Encode).length + 2 + 4 + cue.Dll) % 2 ^ 16 } }).1
    = _
  rw [rollLoop_spec]

theorem encode_state (cue : Cue) : (Cue.Encode cue).1 =
    { cue with
      InfoSection := { cue.InfoSection with
        CommandLength := (cue.Command.Encode).length % 2 ^ 16,
        CommandType := cue.Command.CommandType,
        SectionLength := (11 + (cue.Command.Encode).length + 2 + 4 + cue.Dll) % 2 ^ 16 },
      Dll := loopLen cue.Descriptors % 2 ^ 16,
      Crc32 := cRC32 (bytesOfBits (cue.encodeCore).2) } := by
  show { (cue.encodeCore).1 with Crc32 := cRC32 (bytesOfBits (cue.encodeCore).2) } = _
  rw [encodeCore_state]

theorem encode_bytes (cue : Cue) : (Cue.Encode cue).2 =
    bytesOfBits ((cue.encodeCore).2 ++
      bitsOfNat (cRC32 (bytesOfBits (cue.encodeCore).2)) 32) := by
  simp only [Cue.Encode]

theorem encode_crc_field (cue : Cue) :
    (Cue.Encode cue).1.Crc32 = cRC32 (bytesOfBits (cue.encodeCore).2) := by
  simp only [Cue.Encode]

theorem dvd_length_encodeCore (cue : Cue) : 8 ∣ (cue.encodeCore).2.length := by
  rw [Cue.encodeCore]
  simp only [addBytes, List.length_append, length_bitsOfNat, List.length_nil]
  omega

theorem encode_split (cue : Cue) :
    (Cue.Encode cue).2 = bytesOfBits (cue.encodeCore).2 ++
        bytesOfBits (bitsOfNat ((Cue.Encode cue).1.Crc32) 32)
      ∧ (Cue.Encode cue).1.Crc32 = cRC32 (bytesOfBits (cue.encodeCore).2) := by
  have hcrc := encode_crc_field cue
  refine ⟨?_, hcrc⟩
  rw [encode_bytes, hcrc]
  exact bytesOfBits_append _ _ (dvd_length_encodeCore cue)

theorem length_u32be (n : Nat) : (bytesOfBits (bitsOfNat n 32)).length = 4 := by
  rw [length_bytesOfBits _ (by rw [length_bitsOfNat]; omega), length_bitsOfNat]

/-- C5: for every cue, the trailing 4 bytes of the message produced by
`Encode` equal the 32-bit cyclic redundancy check computed over all
preceding bytes of that message — the checksum covers everything before
it and is never self-referential. -/
theorem encode_trailing_bytes_are_crc (cue : Cue) :
    4 ≤ (Cue.Encode cue).2.length ∧
    (Cue.Encode cue).2.drop ((Cue.Encode cue).2.length - 4)
      = bytesOfBits (bitsOfNat
          (cRC32 ((Cue.Encode cue).2.take ((Cue.Encode cue).2.length - 4))) 32) := by
  obtain ⟨hsplit, hcrc⟩ := encode_split cue
  have htail := length_u32be ((Cue.Encode cue).1.Crc32)
  have hlen : (Cue.Encode cue).2.length
      = (bytesOfBits (cue.encodeCore).2).length + 4 := by
    rw [hsplit, List.length_append, htail]
  have hcut : (Cue.Encode cue).2.length - 4 = (bytesOfBits (cue.encodeCore).2).length := by
    omega
  have hpre : (Cue.Encode cue).2.take ((Cue.Encode cue).2.length - 4)
      = bytesOfBits (cue.encodeCore).2 := by
    rw [hcut, hsplit, List.take_left]
  have hdrop : (Cue.Encode cue).2.drop ((Cue.Encode cue).2.length - 4)
      = bytesOfBits (bitsOfNat ((Cue.Encode cue).1.Crc32) 32) := by
    rw [hcut, hsplit, List.drop_left]
  refine ⟨by omega, ?_⟩
  rw [hdrop, hpre, ← hcrc]

/-- C8: after encoding, `Dll` equals the exact byte length of the
concatenated serialized descriptor sequence, each descriptor contributing
its tag byte, length byte, 4-byte identifier and payload, for any mixture
of known and unknown descriptor tags (bounded by the 16-bit field the Go
code stores it in). -/
theorem encode_dll_loop_accounting (cue : Cue)
    (h : loopLen cue.Descriptors < 2 ^ 16) :
    (Cue.Encode cue).1.Dll = (cue.rollLoop).2.length ∧
    (cue.rollLoop).2.length
      = (cue.Descriptors.map
          (fun d => 1 + 1 + 4 + (Descriptor.Encode d).length / 8)).sum := by
  have h1 : (cue.rollLoop).2.length = loopLen cue.Descriptors := by
    rw [rollLoop_spec]
    exact length_bytesOfBits_loop cue.Descriptors
  constructor
  · rw [encode_state, h1]
    simp only
    exact Nat.mod_eq_of_lt h
  · rw [h1, loopLen]
    congr 1

/-- C1 (the code violates the claim): `Encode` computes `SectionLength`
from the `Dll` value held before `rollLoop` recomputes it (pass 3 runs
before pass 2), so for a cue entering with a stale `Dll` the finalized
header length omits the descriptor loop produced in the same call: here
`SectionLength` is 18 while 11 + commandLength + 2 + descriptorLoopLength
+ 4 is 26. -/
theorem encode_sectionLength_stale_dll :
    (Cue.Encode staleDllCue).1.InfoSection.SectionLength = 18 ∧
    (Cue.Encode staleDllCue).1.InfoSection.CommandLength = 1 ∧
    (Cue.Encode staleDllCue).1.Dll = 8 ∧
    (Cue.Encode staleDllCue).1.InfoSection.SectionLength ≠
      11 + (Cue.Encode staleDllCue).1.InfoSection.CommandLength + 2 +
        (Cue.Encode staleDllCue).1.Dll + 4 := by
  refine ⟨?_, ?_, ?_, ?_⟩ <;> rw [encode_state] <;> decide

/-- Witness for the loop-accounting theorem at a concrete cue. -/
theorem encode_dll_loop_accounting_witness :
    loopLen staleDllCue.Descriptors < 2 ^ 16 ∧
    ((Cue.Encode staleDllCue).1.Dll = (staleDllCue.rollLoop).2.length ∧
      (staleDllCue.rollLoop).2.length
        = (staleDllCue.Descriptors.map
            (fun d => 1 + 1 + 4 + (Descriptor.Encode d).length / 8)).sum) :=
  ⟨by decide, encode_dll_loop_accounting staleDllCue (by decide)⟩

theorem six2five_snd (cue : Cue) :
    (Cue.Six2Five cue).2 = (if cue.InfoSection.CommandType = 6 then
      cue.Descriptors.foldl sixStep cue else cue).Encode.1 := rfl

theorem six2five_fst (cue : Cue) :
    (Cue.Six2Five cue).1 = encB64 ((if cue.InfoSection.CommandType = 6 then
      cue.Descriptors.foldl sixStep cue else cue).Encode.2) := rfl

theorem encode_command_preserved (cue : Cue) :
    (Cue.Encode cue).1.Command = cue.Command := by
  rw [encode_state]

theorem encode_descriptors_preserved (cue : Cue) :
    (Cue.Encode cue).1.Descriptors = cue.Descriptors := by
  rw [encode_state]

/-- C10: for every cue whose header command type is not 6, `Six2Five`
performs no command conversion, but still re-runs `Encode` — recomputing
the derived fields (`CommandLength`, `CommandType`, `SectionLength`,
`Dll`, `Crc32`) — and returns the base64 text of the freshly re-encoded
bytes rather than the cue's original serialization. -/
theorem six2five_non_timesignal (cue : Cue)
    (h : cue.InfoSection.CommandType ≠ 6) :
    Cue.Six2Five cue = (encB64 (Cue.Encode cue).2, (Cue.Encode cue).1) ∧
    (Cue.Six2Five cue).2.InfoSection.CommandType = cue.Command.CommandType ∧
    (Cue.Six2Five cue).2.InfoSection.CommandLength
      = (cue.Command.Encode).length % 2 ^ 16 ∧
    (Cue.Six2Five cue).2.InfoSection.SectionLength
      = (11 + (cue.Command.Encode).length + 2 + 4 + cue.Dll) % 2 ^ 16 ∧
    (Cue.Six2Five cue).2.Dll = loopLen cue.Descriptors % 2 ^ 16 ∧
    (Cue.Six2Five cue).2.Crc32 = cRC32 (bytesOfBits (cue.encodeCore).2) := by
  have h1 : Cue.Six2Five cue = (encB64 (Cue.Encode cue).2, (Cue.Encode cue).1) := by
    rw [Prod.ext_iff, six2five_fst, six2five_snd, if_neg h]
    exact ⟨rfl, rfl⟩
  refine ⟨h1, ?_, ?_, ?_, ?_, ?_⟩ <;> rw [h1] <;> rw [encode_state]

/-- Witness for the no-conversion theorem at a concrete Splice Null
cue. -/
theorem six2five_non_timesignal_witness :
    (NewCue.InfoSection.CommandType ≠ 6) ∧
    (Cue.Six2Five NewCue = (encB64 (Cue.Encode NewCue).2, (Cue.Encode NewCue).1) ∧
      (Cue.Six2Five NewCue).2.InfoSection.CommandType = NewCue.Command.CommandType ∧
      (Cue.Six2Five NewCue).2.InfoSection.CommandLength
        = (NewCue.Command.Encode).length % 2 ^ 16 ∧
      (Cue.Six2Five NewCue).2.InfoSection.SectionLength
        = (11 + (NewCue.Command.Encode).length + 2 + 4 + NewCue.Dll) % 2 ^ 16 ∧
      (Cue.Six2Five NewCue).2.Dll = loopLen NewCue.Descriptors % 2 ^ 16 ∧
      (Cue.Six2Five NewCue).2.Crc32 = cRC32 (bytesOfBits (NewCue.encodeCore).2)) :=
  ⟨by decide, six2five_non_timesignal NewCue (by decide)⟩

theorem sixStep_not_seg (c : Cue) (d : Descriptor) (h : d.Tag ≠ 2) :
    sixStep c d = c := by
  rw [sixStep, if_neg h]

theorem sixStep_neither (c : Cue) (d : Descriptor) (h2 : d.Tag = 2)
    (hs : isIn segStarts d.SegmentationTypeID = false)
    (ht : isIn segStops d.SegmentationTypeID = false) :
    sixStep c d = { c with Command := { c.Command with
      SpliceEventID := hex2Int d.SegmentationEventID % 2 ^ 32 } } := by
  simp only [sixStep, if_pos h2, hs, ht, Bool.false_eq_true, if_false]

theorem foldl_sixStep_id (ds : List Descriptor) :
    ∀ c : Cue, (∀ d ∈ ds, d.Tag ≠ 2) → ds.foldl sixStep c = c := by
  induction ds with
  | nil => intro c _; rfl
  | cons d ds ih =>
    intro c h
    rw [List.foldl_cons, sixStep_not_seg c d (h d (by simp)), ih]
    intro e he
    exact h e (by simp [he])

theorem foldl_sixStep_neither (ds : List Descriptor) :
    ∀ c : Cue,
      (∀ d ∈ ds, d.Tag = 2 →
        isIn segStarts d.SegmentationTypeID = false ∧
        isIn segStops d.SegmentationTypeID = false) →
      ds.foldl sixStep c
        = { c with Command := { c.Command with
            SpliceEventID := (ds.foldl sixStep c).Command.SpliceEventID } } := by
  induction ds with
  | nil => intro c _; rfl
  | cons d ds ih =>
    intro c h
    rw [List.foldl_cons]
    by_cases h2 : d.Tag = 2
    · obtain ⟨hs, ht⟩ := h d (by simp) h2
      rw [sixStep_neither c d h2 hs ht]
      exact ih _ (fun e he h2e => h e (by simp [he]) h2e)
    · rw [sixStep_not_seg c d h2]
      exact ih c (fun e he h2e => h e (by simp [he]) h2e)

/-- C4 (the claim fails as stated): for a Time-Signal cue whose only
Segmentation Descriptor's type is in neither set, `Six2Five` still
overwrites the command's `SpliceEventID` with the descriptor's eventID —
the cue is not left unmodified. -/
theorem six2five_neither_set_mutates_eventID :
    isIn segStarts sixNoOpDesc.SegmentationTypeID = false ∧
    isIn segStops sixNoOpDesc.SegmentationTypeID = false ∧
    sixNoOpCue.Command.SpliceEventID = 0 ∧
    (Cue.Six2Five sixNoOpCue).2.Command.SpliceEventID = 2 ∧
    (Cue.Six2Five sixNoOpCue).2.Command ≠ sixNoOpCue.Command := by
  refine ⟨by decide, by decide, by decide, ?_, ?_⟩ <;>
    rw [six2five_snd, if_pos (by decide)] <;>
    rw [show sixNoOpCue.Descriptors.foldl sixStep sixNoOpCue
        = sixStep sixNoOpCue sixNoOpDesc from rfl] <;>
    rw [encode_command_preserved] <;> decide

/-- C4 (amended): for a Time-Signal cue, if no descriptor is a
Segmentation Descriptor the converter leaves the command unchanged; if
Segmentation Descriptors are present but every one's type is in neither
the start nor the stop set, the command is unchanged except that its
spliceEventID is overwritten (with the last such descriptor's eventID);
in both cases the cue is still re-encoded, so the derived header fields
are recomputed rather than left untouched. -/
theorem six2five_neither_set_command (cue : Cue)
    (h6 : cue.InfoSection.CommandType = 6) :
    ((∀ d ∈ cue.Descriptors, d.Tag ≠ 2) →
      (Cue.Six2Five cue).2.Command = cue.Command) ∧
    ((∀ d ∈ cue.Descriptors, d.Tag = 2 →
        isIn segStarts d.SegmentationTypeID = false ∧
        isIn segStops d.SegmentationTypeID = false) →
      (Cue.Six2Five cue).2.Command
        = { cue.Command with
            SpliceEventID := (Cue.Six2Five cue).2.Command.SpliceEventID }) := by
  constructor
  · intro h
    rw [six2five_snd, if_pos h6, encode_command_preserved,
      foldl_sixStep_id cue.Descriptors cue h]
  · intro h
    have hs := six2five_snd cue
    rw [if_pos h6] at hs
    rw [hs, encode_command_preserved]
    rw [foldl_sixStep_neither cue.Descriptors cue h]

theorem sixStep_start (c : Cue) (d : Descriptor) (h2 : d.Tag = 2)
    (hs : isIn segStarts d.SegmentationTypeID = true)
    (hd : d.SegmentationDurationFlag = true) :
    sixStep c d =
      { c with
        InfoSection := { c.InfoSection with CommandType := 5 },
        Command := { c.Command with
          CommandType := 5, Name := "Splice Insert",
          SpliceEventID := hex2Int d.SegmentationEventID % 2 ^ 32,
          SpliceEventCancelIndicator := false,
          OutOfNetworkIndicator := true,
          ProgramSpliceFlag := true,
          DurationFlag := true,
          BreakAutoReturn := true,
          BreakDuration := d.SegmentationDuration,
          TimeSpecifiedFlag := decide (0 < c.Command.PTS),
          SpliceImmediateFlag := false,
          AvailNum := 0, AvailExpected := 0 } } := by
  by_cases hp : 0 < c.Command.PTS <;>
    simp [sixStep, h2, hs, hd, Cue.mkSpliceInsert, hp]

theorem sixStep_start_fix (c : Cue) (d : Descriptor) (h2 : d.Tag = 2)
    (hs : isIn segStarts d.SegmentationTypeID = true)
    (hd : d.SegmentationDurationFlag = true) :
    sixStep (sixStep c d) d = sixStep c d := by
  rw [sixStep_start c d h2 hs hd, sixStep_start _ d h2 hs hd]

theorem foldl_sixStep_start_fixed (d : Descriptor) (h2 : d.Tag = 2)
    (hs : isIn segStarts d.SegmentationTypeID = true)
    (hd : d.SegmentationDurationFlag = true) (ds : List Descriptor) :
    ∀ c : Cue, (∀ e ∈ ds, e.Tag = 2 → e = d) →
      ds.foldl sixStep (sixStep c d) = sixStep c d := by
  induction ds with
  | nil => intro c _; rfl
  | cons e es ih =>
    intro c h
    rw [List.foldl_cons]
    by_cases he : e.Tag = 2
    · rw [h e (by simp) he, sixStep_start_fix c d h2 hs hd]
      exact ih c (fun x hx tx => h x (by simp [hx]) tx)
    · rw [sixStep_not_seg _ e he]
      exact ih c (fun x hx tx => h x (by simp [hx]) tx)

theorem foldl_sixStep_start (d : Descriptor) (h2 : d.Tag = 2)
    (hs : isIn segStarts d.SegmentationTypeID = true)
    (hd : d.SegmentationDurationFlag = true) (ds : List Descriptor) :
    ∀ c : Cue, (∀ e ∈ ds, e.Tag = 2 → e = d) → d ∈ ds →
      ds.foldl sixStep c = sixStep c d := by
  induction ds with
  | nil => intro c _ hmem; simp at hmem
  | cons e es ih =>
    intro c h hmem
    rw [List.foldl_cons]
    by_cases he : e.Tag = 2
    · rw [h e (by simp) he]
      exact foldl_sixStep_start_fixed d h2 hs hd es c
        (fun x hx tx => h x (by simp [hx]) tx)
    · rw [sixStep_not_seg c e he]
      have hd2 : d ∈ es := by
        rcases List.mem_cons.mp hmem with rfl | hmem2
        · exact absurd h2 he
        · exact hmem2
      exact ih c (fun x hx tx => h x (by simp [hx]) tx) hd2

/-- C6 (the claim fails as stated): for a Time-Signal cue whose PTS field
is present (presence is flag-driven per the spec) but equal to zero, the
start-set conversion does not copy the PTS — the code tests
`cue.Command.PTS > 0.0`, so the converted Splice Insert has no time
specified. -/
theorem six2five_present_zero_pts_dropped :
    ptsZeroCue.Command.TimeSpecifiedFlag = true ∧
    ptsZeroCue.InfoSection.CommandType = 6 ∧
    isIn segStarts startDesc.SegmentationTypeID = true ∧
    startDesc.SegmentationDurationFlag = true ∧
    (Cue.Six2Five ptsZeroCue).2.Command.TimeSpecifiedFlag = false := by
  refine ⟨by decide, by decide, by decide, by decide, ?_⟩
  rw [six2five_snd, if_pos (by decide),
    show ptsZeroCue.Descriptors.foldl sixStep ptsZeroCue
      = sixStep ptsZeroCue startDesc from rfl,
    encode_command_preserved]
  decide

/-- C6 (amended): for every Time-Signal cue whose unique Segmentation
Descriptor has a start-set type and the duration flag set, the converter
replaces the command with a Splice Insert carrying
outOfNetworkIndicator, durationFlag and autoReturn set, breakDuration
equal to the descriptor's duration, spliceEventID equal to the
descriptor's eventID read as a hexadecimal numeral (truncated to 32
bits), programSpliceFlag set — and the PTS of the original Time Signal
carried over exactly when it is strictly positive (a present-but-zero
PTS is dropped). -/
theorem six2five_start_conversion (cue : Cue) (d : Descriptor)
    (h6 : cue.InfoSection.CommandType = 6)
    (hmem : d ∈ cue.Descriptors)
    (huniq : ∀ e ∈ cue.Descriptors, e.Tag = 2 → e = d)
    (htag : d.Tag = 2)
    (hstart : isIn segStarts d.SegmentationTypeID = true)
    (hdur : d.SegmentationDurationFlag = true) :
    (Cue.Six2Five cue).2.Command = { cue.Command with
      CommandType := 5, Name := "Splice Insert",
      SpliceEventID := hex2Int d.SegmentationEventID % 2 ^ 32,
      SpliceEventCancelIndicator := false,
      OutOfNetworkIndicator := true,
      ProgramSpliceFlag := true,
      DurationFlag := true,
      BreakAutoReturn := true,
      BreakDuration := d.SegmentationDuration,
      TimeSpecifiedFlag := decide (0 < cue.Command.PTS),
      SpliceImmediateFlag := false,
      AvailNum := 0, AvailExpected := 0 } ∧
    ((0 : Nat) < cue.Command.PTS →
      (Cue.Six2Five cue).2.Command.PTS = cue.Command.PTS ∧
      (Cue.Six2Five cue).2.Command.TimeSpecifiedFlag = true) := by
  have hfold := foldl_sixStep_start d htag hstart hdur cue.Descriptors cue huniq hmem
  have h1 : (Cue.Six2Five cue).2.Command = (sixStep cue d).Command := by
    rw [six2five_snd, if_pos h6, encode_command_preserved, hfold]
  rw [h1, sixStep_start cue d htag hstart hdur]
  refine ⟨rfl, fun hp => ⟨rfl, by simp [hp]⟩⟩

/-- Witness for the amended conversion theorem at a concrete cue. -/
theorem six2five_start_conversion_witness :
    (startConvCue.InfoSection.CommandType = 6 ∧
      startDesc ∈ startConvCue.Descriptors ∧
      (∀ e ∈ startConvCue.Descriptors, e.Tag = 2 → e = startDesc) ∧
      startDesc.Tag = 2 ∧
      isIn segStarts startDesc.SegmentationTypeID = true ∧
      startDesc.SegmentationDurationFlag = true) ∧
    ((Cue.Six2Five startConvCue).2.Command = { startConvCue.Command with
      CommandType := 5, Name := "Splice Insert",
      SpliceEventID := hex2Int startDesc.SegmentationEventID % 2 ^ 32,
      SpliceEventCancelIndicator := false,
      OutOfNetworkIndicator := true,
      ProgramSpliceFlag := true,
      DurationFlag := true,
      BreakAutoReturn := true,
      BreakDuration := startDesc.SegmentationDuration,
      TimeSpecifiedFlag := decide (0 < startConvCue.Command.PTS),
      SpliceImmediateFlag := false,
      AvailNum := 0, AvailExpected := 0 } ∧
    ((0 : Nat) < startConvCue.Command.PTS →
      (Cue.Six2Five startConvCue).2.Command.PTS = startConvCue.Command.PTS ∧
      (Cue.Six2Five startConvCue).2.Command.TimeSpecifiedFlag = true)) :=
  ⟨⟨by decide, by decide, by decide, by decide, by decide, by decide⟩,
    six2five_start_conversion startConvCue startDesc (by decide) (by decide)
      (by decide) (by decide) (by decide) (by decide)⟩

/-- Witness for the amended no-op theorem at a concrete cue. -/
theorem six2five_neither_set_command_witness :
    (sixNoOpCue.InfoSection.CommandType = 6) ∧
    (((∀ d ∈ sixNoOpCue.Descriptors, d.Tag ≠ 2) →
      (Cue.Six2Five sixNoOpCue).2.Command = sixNoOpCue.Command) ∧
    ((∀ d ∈ sixNoOpCue.Descriptors, d.Tag = 2 →
        isIn segStarts d.SegmentationTypeID = false ∧
        isIn segStops d.SegmentationTypeID = false) →
      (Cue.Six2Five sixNoOpCue).2.Command
        = { sixNoOpCue.Command with
            SpliceEventID := (Cue.Six2Five sixNoOpCue).2.Command.SpliceEventID })) :=
  ⟨by decide, six2five_neither_set_command sixNoOpCue (by decide)⟩

theorem infoSection_decode_mismatch (x : Nat) (rest : List Bool)
    (hx : x % 256 ≠ 0xfc) :
    InfoSection.Decode (bitsOfNat x 8 ++ rest)
      = some (false, { TableID := x % 256 }, rest) := by
  rw [InfoSection.Decode, readBits_bitsOfNat]
  simp [hx]

/-- C3 (the claim fails as stated): a decode whose table identifier does
not match returns failure, but the cue is mutated: its `InfoSection` is
replaced by the partially decoded header holding the mismatching table
identifier, so partially-decoded data is exposed. -/
theorem decode_failure_exposes_header :
    (Cue.decodeBytes preloadedCue [0xfd, 0, 0]).1 = false ∧
    (Cue.decodeBytes preloadedCue [0xfd, 0, 0]).2.InfoSection.TableID = 0xfd ∧
    (Cue.decodeBytes preloadedCue [0xfd, 0, 0]).2 ≠ preloadedCue := by
  refine ⟨by decide, by decide, by decide⟩

/-- Reduction of `decodeBytes` when the header decode aborts. -/
theorem decodeBytes_isec_none (cue : Cue) (bites : List Nat)
    (h : InfoSection.Decode (bitsOfBytes bites) = none) :
    Cue.decodeBytes cue bites = (false, { cue with InfoSection := {} }) := by
  rw [Cue.decodeBytes, h]

/-- Reduction of `decodeBytes` on a table-identifier mismatch. -/
theorem decodeBytes_isec_bad (cue : Cue) (bites : List Nat)
    (isec : InfoSection) (bd : List Bool)
    (h : InfoSection.Decode (bitsOfBytes bites) = some (false, isec, bd)) :
    Cue.decodeBytes cue bites = (false, { cue with InfoSection := isec }) := by
  rw [Cue.decodeBytes, h]
  rfl

/-- Reduction of `decodeBytes` when the command decode aborts. -/
theorem decodeBytes_cmd_none (cue : Cue) (bites : List Nat)
    (isec : InfoSection) (bd : List Bool)
    (hI : InfoSection.Decode (bitsOfBytes bites) = some (true, isec, bd))
    (hC : Command.Decode isec.CommandType bd = none) :
    Cue.decodeBytes cue bites
      = (false, { cue with InfoSection := isec, Command := {} }) := by
  rw [Cue.decodeBytes, hI]
  simp [hC]

/-- Reduction of `decodeBytes` when the loop-length read aborts. -/
theorem decodeBytes_dll_none (cue : Cue) (bites : List Nat)
    (isec : InfoSection) (bd : List Bool) (cmd : Command) (bd2 : List Bool)
    (hI : InfoSection.Decode (bitsOfBytes bites) = some (true, isec, bd))
    (hC : Command.Decode isec.CommandType bd = some (cmd, bd2))
    (hD : readBits bd2 16 = none) :
    Cue.decodeBytes cue bites
      = (false, { cue with InfoSection := isec, Command := cmd }) := by
  rw [Cue.decodeBytes, hI]
  simp [hC, hD]

/-- Reduction of `decodeBytes` when the descriptor loop aborts. -/
theorem decodeBytes_loop_fail (cue : Cue) (bites : List Nat)
    (isec : InfoSection) (bd : List Bool) (cmd : Command) (bd2 : List Bool)
    (dll : Nat) (bd3 : List Bool) (ds : List Descriptor) (bd4 : List Bool)
    (hI : InfoSection.Decode (bitsOfBytes bites) = some (true, isec, bd))
    (hC : Command.Decode isec.CommandType bd = some (cmd, bd2))
    (hD : readBits bd2 16 = some (dll, bd3))
    (hL : dscptrLoop 0 dll bd3 = (false, ds, bd4)) :
    Cue.decodeBytes cue bites
      = (false,
          { cue with
            InfoSection := isec, Command := cmd, Dll := dll,
            Descriptors := cue.Descriptors ++ ds }) := by
  rw [Cue.decodeBytes, hI]
  simp [hC, hD, hL]

/-- Reduction of `decodeBytes` when the checksum read aborts. -/
theorem decodeBytes_crc_none (cue : Cue) (bites : List Nat)
    (isec : InfoSection) (bd : List Bool) (cmd : Command) (bd2 : List Bool)
    (dll : Nat) (bd3 : List Bool) (ds : List Descriptor) (bd4 : List Bool)
    (hI : InfoSection.Decode (bitsOfBytes bites) = some (true, isec, bd))
    (hC : Command.Decode isec.CommandType bd = some (cmd, bd2))
    (hD : readBits bd2 16 = some (dll, bd3))
    (hL : dscptrLoop 0 dll bd3 = (true, ds, bd4))
    (hR : readBits bd4 32 = none) :
    Cue.decodeBytes cue bites
      = (false,
          { cue with
            InfoSection := isec, Command := cmd, Dll := dll,
            Descriptors := cue.Descriptors ++ ds }) := by
  rw [Cue.decodeBytes, hI]
  simp [hC, hD, hL, hR]

/-- Reduction of `decodeBytes` on the success path. -/
theorem decodeBytes_success (cue : Cue) (bites : List Nat)
    (isec : InfoSection) (bd : List Bool) (cmd : Command) (bd2 : List Bool)
    (dll : Nat) (bd3 : List Bool) (ds : List Descriptor) (bd4 : List Bool)
    (crc : Nat) (bd5 : List Bool)
    (hI : InfoSection.Decode (bitsOfBytes bites) = some (true, isec, bd))
    (hC : Command.Decode isec.CommandType bd = some (cmd, bd2))
    (hD : readBits bd2 16 = some (dll, bd3))
    (hL : dscptrLoop 0 dll bd3 = (true, ds, bd4))
    (hR : readBits bd4 32 = some (crc, bd5)) :
    Cue.decodeBytes cue bites
      = (true,
          { cue with
            InfoSection := isec, Command := cmd, Dll := dll,
            Descriptors := cue.Descriptors ++ ds, Crc32 := crc }) := by
  rw [Cue.decodeBytes, hI]
  simp [hC, hD, hL, hR]

/-- C3 (amended): whenever the modelled decode fails it returns failure,
but the cue may be left holding partially-decoded data: on a
table-identifier mismatch the `InfoSection` is overwritten with the
partially decoded header (holding the read identifier) while the
command, loop length, descriptor and checksum fields keep their previous
values; and no failing decode ever updates the checksum field. -/
theorem decode_failure_mutation (cue : Cue) (bites : List Nat) :
    (∀ x rest, bites = x :: rest → x % 256 ≠ 0xfc →
      Cue.decodeBytes cue bites
        = (false, { cue with InfoSection := { TableID := x % 256 } })) ∧
    ((Cue.decodeBytes cue bites).1 = false →
      (Cue.decodeBytes cue bites).2.Crc32 = cue.Crc32) := by
  constructor
  · intro x rest hb hx
    subst hb
    have hI : InfoSection.Decode (bitsOfBytes (x :: rest))
        = some (false, { TableID := x % 256 }, bitsOfBytes rest) := by
      rw [bitsOfBytes_cons]
      exact infoSection_decode_mismatch x _ hx
    rw [decodeBytes_isec_bad cue (x :: rest) _ _ hI]
  · intro hfail
    rcases hI : InfoSection.Decode (bitsOfBytes bites) with _ | ⟨ok, isec, bd⟩
    · rw [decodeBytes_isec_none cue bites hI]
    · cases ok with
      | false => rw [decodeBytes_isec_bad cue bites isec bd hI]
      | true =>
        rcases hC : Command.Decode isec.CommandType bd with _ | ⟨cmd, bd2⟩
        · rw [decodeBytes_cmd_none cue bites isec bd hI hC]
        · rcases hD : readBits bd2 16 with _ | ⟨dll, bd3⟩
          · rw [decodeBytes_dll_none cue bites isec bd cmd bd2 hI hC hD]
          · rcases hL : dscptrLoop 0 dll bd3 with ⟨ok2, ds, bd4⟩
            cases ok2 with
            | false =>
              rw [decodeBytes_loop_fail cue bites isec bd cmd bd2 dll bd3 ds bd4
                hI hC hD hL]
            | true =>
              rcases hR : readBits bd4 32 with _ | ⟨crc, bd5⟩
              · rw [decodeBytes_crc_none cue bites isec bd cmd bd2 dll bd3 ds bd4
                  hI hC hD hL hR]
              · rw [decodeBytes_success cue bites isec bd cmd bd2 dll bd3 ds bd4
                  crc bd5 hI hC hD hL hR] at hfail
                simp at hfail

/-- Witness for the amended decode-failure theorem at a concrete cue and
buffer. -/
theorem decode_failure_mutation_witness :
    (Cue.decodeBytes preloadedCue [0xfd, 0, 0]
        = (false, { preloadedCue with InfoSection := { TableID := 0xfd % 256 } })) ∧
    ((Cue.decodeBytes preloadedCue [0xfd, 0, 0]).1 = false →
      (Cue.decodeBytes preloadedCue [0xfd, 0, 0]).2.Crc32 = preloadedCue.Crc32) :=
  ⟨(decode_failure_mutation preloadedCue [0xfd, 0, 0]).1 0xfd [0, 0] rfl (by decide),
    (decode_failure_mutation preloadedCue [0xfd, 0, 0]).2⟩

/-- C7 (the claim fails as stated): the string "10" is hexadecimal ASCII
text, so the claimed hex-first normalization reads it as 0x10 = 16; the
code's `fmt.Sscan` into a `big.Int` parses it as the decimal numeral 10,
so the two normalizations disagree. -/
theorem decode_norm_not_hex_first :
    decodeNorm (DecodeInput.str "10") = [10] ∧
    specHexFirstNorm (DecodeInput.str "10") = [16] ∧
    decodeNorm (DecodeInput.str "10") ≠ specHexFirstNorm (DecodeInput.str "10") := by
  refine ⟨by decide, by decide, by decide⟩

/-- C7 (amended): `Decode` normalizes a string input by first attempting
a Go-style integer-numeral scan (base from the prefix — 0x/0X selects
hexadecimal — decimal by default, so unprefixed hexadecimal text with
letters fails the scan and unprefixed digit strings are read as decimal);
on success the numeral's big-endian magnitude bytes are decoded, else the
string is treated as base64; a non-string input is treated as raw
bytes. -/
theorem decode_norm_dispatch :
    (∀ b : List Nat, decodeNorm (DecodeInput.bytes b) = b) ∧
    (∀ s : String, sscanBigInt s = none →
      decodeNorm (DecodeInput.str s) = decB64 s) ∧
    (∀ s : String, ∀ j : Int, sscanBigInt s = some j →
      decodeNorm (DecodeInput.str s) = natBytes j.natAbs) ∧
    decodeNorm (DecodeInput.str "0xfc3011") = [0xfc, 0x30, 0x11] ∧
    decodeNorm (DecodeInput.str "10") = [10] ∧
    sscanBigInt "fc3011" = none := by
  refine ⟨fun b => rfl, ?_, ?_, by decide, by decide, by decide⟩
  · intro s h
    simp [decodeNorm, h]
  · intro s j h
    simp [decodeNorm, h]

/-- Witness for the normalization dispatch theorem at a concrete base64
string. -/
theorem decode_norm_dispatch_witness :
    sscanBigInt "/DAv" = none ∧
    decodeNorm (DecodeInput.str "/DAv") = decB64 "/DAv" :=
  ⟨by decide, decode_norm_dispatch.2.1 "/DAv" (by decide)⟩

theorem readBytes_exact (bs : List Nat) : ∀ rest : List Bool,
    readBytes (bitsOfBytes bs ++ rest) bs.length = some (bs.map (· % 256), rest) := by
  induction bs with
  | nil => intro rest; rfl
  | cons b bs ih =>
    intro rest
    rw [bitsOfBytes_cons, List.length_cons, readBytes, List.append_assoc,
      readBits_bitsOfNat]
    simp [ih rest, show (2:Nat) ^ 8 = 256 from by norm_num]

theorem crcBit_lt (c : Nat) : crcBit c < 2 ^ 32 := by
  rw [crcBit]
  split <;> exact Nat.mod_lt _ (by norm_num)

theorem crcIter_lt (n : Nat) : ∀ x : Nat, crcBit^[n + 1] x < 2 ^ 32 := by
  induction n with
  | zero => exact crcBit_lt
  | succ n ih =>
    intro x
    rw [Function.iterate_succ_apply]
    exact ih (crcBit x)

theorem crcByte_lt (c b : Nat) : crcByte c b < 2 ^ 32 := by
  rw [crcByte]
  exact crcIter_lt 7 _

theorem foldl_crcByte_lt (bs : List Nat) : ∀ c : Nat, c < 2 ^ 32 →
    bs.foldl crcByte c < 2 ^ 32 := by
  induction bs with
  | nil => intro c hc; simpa using hc
  | cons b bs ih =>
    intro c hc
    rw [List.foldl_cons]
    exact ih _ (crcByte_lt c b)

theorem cRC32_lt (bs : List Nat) : cRC32 bs < 2 ^ 32 :=
  foldl_crcByte_lt bs _ (by norm_num)

theorem infoSection_roundtrip (i : InfoSection) (rest : List Bool)
    (h : i.TableID % 256 = 0xfc) :
    InfoSection.Decode (InfoSection.bits i ++ rest)
      = some (true, canonInfoSection i, rest) := by
  have h1 : (0:Int) ≤ i.PtsAdjustment.emod 8589934592 :=
    Int.emod_nonneg _ (by norm_num)
  have h2 : i.PtsAdjustment.emod 8589934592 < 8589934592 :=
    Int.emod_lt_of_pos _ (by norm_num)
  rw [InfoSection.bits]
  simp [InfoSection.Decode, List.append_assoc, List.cons_append, readBits_bitsOfNat,
    readBool_cons, h, canonInfoSection]
  omega

theorem readComponents_rt (qs : List (Bool × Nat)) : ∀ bd : List Bool,
    readComponents ((qs.map (fun q => spliceTimeBits q.1 q.2)).flatten ++ bd) qs.length
      = some (qs.map canonST, bd) := by
  induction qs with
  | nil => intro bd; rfl
  | cons q qs ih =>
    intro bd
    rw [List.map_cons, List.flatten_cons, List.length_cons, readComponents,
      List.append_assoc, readSpliceTime_spec]
    simp [ih bd, canonST]

theorem commandDecode_other (t : Nat) (bd : List Bool) (h5 : t ≠ 5) (h6 : t ≠ 6) :
    Command.Decode t bd = some ({ CommandType := t, Name := cmdName t }, bd) := by
  rcases t with _|_|_|_|_|_|_|t
  · rfl
  · rfl
  · rfl
  · rfl
  · rfl
  · exact absurd rfl h5
  · exact absurd rfl h6
  · rfl

theorem commandBits_other (c : Command) (h5 : c.CommandType ≠ 5)
    (h6 : c.CommandType ≠ 6) : Command.bits c = [] := by
  rw [Command.bits]
  split
  · rename_i h; exact absurd h h5
  · rename_i h; exact absurd h h6
  · rfl

theorem canonCommand_other (c : Command) (h5 : c.CommandType ≠ 5)
    (h6 : c.CommandType ≠ 6) :
    canonCommand c
      = { CommandType := c.CommandType, Name := cmdName c.CommandType } := by
  rw [canonCommand]
  split
  · rename_i h; exact absurd h h5
  · rename_i h; exact absurd h h6
  · rfl

theorem command_roundtrip (c : Command) (rest : List Bool)
    (h5 : c.CommandType = 5 → c.Components.length < 256) :
    Command.Decode c.CommandType (Command.bits c ++ rest)
      = some (canonCommand c, rest) := by
  by_cases hct5 : c.CommandType = 5
  · have hcomp := h5 hct5
    have hmod : c.Components.length % 256 = c.Components.length :=
      Nat.mod_eq_of_lt hcomp
    cases hc : c.SpliceEventCancelIndicator with
    | true =>
      rw [canonCommand, hct5, if_pos hc, Command.bits, hct5, hc]
      simp [Command.Decode, readBits_bitsOfNat, readBool_cons, List.append_assoc]
    | false =>
      rw [canonCommand, hct5, if_neg (by simp [hc]), Command.bits, hct5, hc]
      cases hpsf : c.ProgramSpliceFlag <;> cases hsif : c.SpliceImmediateFlag <;>
        cases hdf : c.DurationFlag <;>
        simp [Command.Decode, siTime, siComponents, siDuration, siAvails,
          readBits_bitsOfNat, readBool_cons, readSpliceTime_spec, readComponents_rt,
          hmod, List.append_assoc]
  · by_cases hct6 : c.CommandType = 6
    · rw [canonCommand, hct6, Command.bits, hct6, Command.Decode, readSpliceTime_spec]
    · rw [commandBits_other c hct5 hct6, canonCommand_other c hct5 hct6,
        List.nil_append, commandDecode_other _ _ hct5 hct6]

theorem descriptor_roundtrip (d : Descriptor) (len : Nat) (rest : List Bool)
    (htag : d.Tag < 256)
    (hty : d.Tag = 2 → d.SegmentationTypeID < 256 ∧ d.SegmentationUpid.length < 256)
    (hlen : d.Tag ≠ 2 → len = d.Bites.length + 4) :
    Descriptor.Decode d.Tag len (bitsOfNat 0x43554549 32 ++ (Descriptor.Encode d ++ rest))
      = some (canonDescriptor d, rest) := by
  rw [Descriptor.Decode, readBits_bitsOfNat]
  by_cases ht2 : d.Tag = 2
  · obtain ⟨hty1, hty2⟩ := hty ht2
    have hmty : d.SegmentationTypeID % 256 = d.SegmentationTypeID :=
      Nat.mod_eq_of_lt hty1
    have hmup : d.SegmentationUpid.length % 256 = d.SegmentationUpid.length :=
      Nat.mod_eq_of_lt hty2
    rw [Descriptor.Encode, if_pos ht2, canonDescriptor, if_pos ht2]
    cases hcanc : d.SegmentationEventCancelIndicator with
    | true =>
      simp [hcanc, ht2, readBits_bitsOfNat, readBool_cons, List.append_assoc]
    | false =>
      cases hdnr : d.DeliveryNotRestrictedFlag <;>
        cases hsdf : d.SegmentationDurationFlag <;>
        cases hsub : isIn subSegTypes d.SegmentationTypeID <;>
        simp [hcanc, ht2, segBody, segRestrict, segDur, segUpid, segTail, segSub,
          readBits_bitsOfNat, readBool_cons, readBytes_exact, hmty, hmup, hsub,
          List.append_assoc]
  · have hl := hlen ht2
    rw [Descriptor.Encode, if_neg ht2, canonDescriptor, if_neg ht2, hl]
    simp [ht2, readBytes_exact, Nat.mod_eq_of_lt htag]

theorem loopBits_cons (d : Descriptor) (ds : List Descriptor) :
    loopBits (d :: ds) = descChunk d ++ loopBits ds := by
  simp [loopBits]

theorem loopLen_cons (d : Descriptor) (ds : List Descriptor) :
    loopLen (d :: ds) = descWireLen d + loopLen ds := by
  simp [loopLen]

theorem dscptrLoop_rt (ds : List Descriptor)
    (hds : ∀ d ∈ ds, Descriptor.encReady d = true) :
    ∀ i : Nat, ∀ rest : List Bool,
      dscptrLoop i (i + loopLen ds) (loopBits ds ++ rest)
        = (true, ds.map canonDescriptor, rest) := by
  induction ds with
  | nil =>
    intro i rest
    simp [dscptrLoop, loopBits, loopLen]
  | cons d ds ih =>
    intro i rest
    obtain ⟨htag, hlen251, hseg⟩ := of_decide_eq_true (hds d (by simp))
    have hds' : ∀ x ∈ ds, Descriptor.encReady x = true :=
      fun x hx => hds x (by simp [hx])
    have hone : bytesOfBits (bitsOfNat 1 8) = [1] := by decide
    have heb : (bytesOfBits (bitsOfNat 1 8 ++ d.Encode)).length
        = 1 + (Descriptor.Encode d).length / 8 := by
      rw [bytesOfBits_append _ _ (by rw [length_bitsOfNat]), hone, List.length_append,
        length_bytesOfBits _ (dvd_length_descriptorEncode d)]
      rfl
    have hlb : ((bytesOfBits (bitsOfNat 1 8 ++ d.Encode)).length + 3) % 256
        = (Descriptor.Encode d).length / 8 + 4 := by
      rw [heb]
      have := hlen251
      omega
    have hL : i + loopLen (d :: ds)
        = i + 2 + ((Descriptor.Encode d).length / 8 + 4) + loopLen ds := by
      rw [loopLen_cons, descWireLen]
      omega
    have hlt : i < i + 2 + ((Descriptor.Encode d).length / 8 + 4) + loopLen ds := by
      omega
    have hdec := descriptor_roundtrip d ((Descriptor.Encode d).length / 8 + 4)
      (loopBits ds ++ rest) htag hseg
      (fun h2 => by rw [Descriptor.Encode, if_neg h2, length_bitsOfBytes,
        Nat.mul_div_cancel_left _ (by norm_num)])
    have hihs := ih hds' (i + 2 + ((Descriptor.Encode d).length / 8 + 4)) rest
    rw [loopBits_cons, descChunk, hL, dscptrLoop, dif_pos hlt]
    simp [readBits_bitsOfNat, Nat.mod_eq_of_lt htag, hlb, hdec, hihs,
      List.append_assoc]

theorem encode_isec (c : Cue) : (Cue.Encode c).1.InfoSection = encHeader c := by
  rw [encode_state]
  rfl

theorem encodeCore_bits (cue : Cue) (hloop : loopLen cue.Descriptors < 8192) :
    (cue.encodeCore).2
      = InfoSection.bits (encHeader cue) ++
        (Command.bits cue.Command ++
          (bitsOfNat (loopLen cue.Descriptors) 16 ++ loopBits cue.Descriptors)) := by
  have hmod : loopLen cue.Descriptors % 2 ^ 16 = loopLen cue.Descriptors :=
    Nat.mod_eq_of_lt (by omega)
  have hw : (8 * loopLen cue.Descriptors) % 2 ^ 16
      = 8 * (bytesOfBits (loopBits cue.Descriptors)).length := by
    rw [length_bytesOfBits_loop]
    exact Nat.mod_eq_of_lt (by omega)
  show addBytes
      (addBytes (addBytes [] (InfoSection.Encode (encHeader cue))
          (8 * (InfoSection.Encode (encHeader cue)).length))
        cue.Command.Encode (8 * (cue.Command.Encode).length) ++
        bitsOfNat (Cue.rollLoop { cue with InfoSection := encHeader cue }).1.Dll 16)
      (Cue.rollLoop { cue with InfoSection := encHeader cue }).2
      ((8 * (Cue.rollLoop { cue with InfoSection := encHeader cue }).1.Dll) % 2 ^ 16)
    = _
  have e1 : addBytes [] (bytesOfBits (InfoSection.bits (encHeader cue)))
      (8 * (bytesOfBits (InfoSection.bits (encHeader cue))).length)
      = InfoSection.bits (encHeader cue) := by
    rw [addBytes_exact _ _ (bytesOfBits_lt _), List.nil_append,
      bitsOfBytes_bytesOfBits _ (by rw [length_infoSectionBits]; norm_num)]
  have e2 : ∀ bs : List Bool, addBytes bs (bytesOfBits (Command.bits cue.Command))
      (8 * (bytesOfBits (Command.bits cue.Command)).length)
      = bs ++ Command.bits cue.Command := by
    intro bs
    rw [addBytes_exact _ _ (bytesOfBits_lt _),
      bitsOfBytes_bytesOfBits _ (dvd_length_commandBits _)]
  have e3 : ∀ bs : List Bool, addBytes bs (bytesOfBits (loopBits cue.Descriptors))
      ((8 * loopLen cue.Descriptors) % 2 ^ 16)
      = bs ++ loopBits cue.Descriptors := by
    intro bs
    rw [hw, addBytes_exact _ _ (bytesOfBits_lt _),
      bitsOfBytes_bytesOfBits _ (by rw [length_loopBits]; omega)]
  rw [rollLoop_spec]
  simp only [hmod]
  rw [InfoSection.Encode, Command.Encode, e1, e2, e3]
  simp [List.append_assoc]

theorem decodeBytes_encode (c : Cue) (h : c.encodeReady = true) :
    Cue.decodeBytes NewCue (Cue.Encode c).2
      = (true,
          { InfoSection := canonInfoSection (encHeader c),
            Command := canonCommand c.Command,
            Dll := loopLen c.Descriptors,
            Descriptors := c.Descriptors.map canonDescriptor,
            PacketData := none,
            Crc32 := cRC32 (bytesOfBits (c.encodeCore).2) }) := by
  obtain ⟨hTID, hCT, hC5, hDS, hLOOP⟩ := of_decide_eq_true h
  generalize hX : cRC32 (bytesOfBits (c.encodeCore).2) = X
  have hXlt : X < 2 ^ 32 := hX ▸ cRC32_lt _
  have hbits : bitsOfBytes (Cue.Encode c).2
      = (c.encodeCore).2 ++ bitsOfNat X 32 := by
    rw [encode_bytes, hX, bitsOfBytes_bytesOfBits]
    obtain ⟨k, hk⟩ := dvd_length_encodeCore c
    simp [List.length_append, length_bitsOfNat, hk]
  rw [encodeCore_bits c hLOOP] at hbits
  simp only [List.append_assoc] at hbits
  have hI : InfoSection.Decode (bitsOfBytes (Cue.Encode c).2)
      = some (true, canonInfoSection (encHeader c),
          Command.bits c.Command ++
            (bitsOfNat (loopLen c.Descriptors) 16 ++
              (loopBits c.Descriptors ++ bitsOfNat X 32))) := by
    rw [hbits]
    exact infoSection_roundtrip _ _ (by simp [encHeader, hTID])
  have hCmd : (canonInfoSection (encHeader c)).CommandType = c.Command.CommandType := by
    simp [canonInfoSection, encHeader, Nat.mod_eq_of_lt hCT]
  have hC : Command.Decode (canonInfoSection (encHeader c)).CommandType
        (Command.bits c.Command ++
          (bitsOfNat (loopLen c.Descriptors) 16 ++
            (loopBits c.Descriptors ++ bitsOfNat X 32)))
      = some (canonCommand c.Command,
          bitsOfNat (loopLen c.Descriptors) 16 ++
            (loopBits c.Descriptors ++ bitsOfNat X 32)) := by
    rw [hCmd]
    exact command_roundtrip c.Command _ hC5
  have hD : readBits
        (bitsOfNat (loopLen c.Descriptors) 16 ++
          (loopBits c.Descriptors ++ bitsOfNat X 32)) 16
      = some (loopLen c.Descriptors, loopBits c.Descriptors ++ bitsOfNat X 32) := by
    rw [readBits_bitsOfNat, Nat.mod_eq_of_lt (by omega)]
  have hL : dscptrLoop 0 (loopLen c.Descriptors)
        (loopBits c.Descriptors ++ bitsOfNat X 32)
      = (true, c.Descriptors.map canonDescriptor, bitsOfNat X 32) := by
    have := dscptrLoop_rt c.Descriptors hDS 0 (bitsOfNat X 32)
    rwa [Nat.zero_add] at this
  have hR : readBits (bitsOfNat X 32) 32 = some (X, []) := by
    have : bitsOfNat X 32 = bitsOfNat X 32 ++ [] := by simp
    rw [this, readBits_bitsOfNat, Nat.mod_eq_of_lt hXlt]
  rw [decodeBytes_success NewCue (Cue.Encode c).2 _ _ _ _ _ _ _ _ _ _ hI hC hD hL hR]
  simp [NewCue]

theorem dscptrLoop_stop (i l : Nat) (bd : List Bool) (h : ¬ i < l) :
    dscptrLoop i l bd = (true, [], bd) := by
  rw [dscptrLoop, dif_neg h]

theorem c2_decode : Cue.decodeBytes NewCue c2Bytes = (true, c2X) := by
  rw [decodeBytes_success NewCue c2Bytes c2X.InfoSection
    (bitsOfBytes [0x7f, 0, 0, 0xde, 0xad, 0xbe, 0xef]) c2X.Command
    (bitsOfBytes [0, 0, 0xde, 0xad, 0xbe, 0xef]) 0
    (bitsOfBytes [0xde, 0xad, 0xbe, 0xef]) []
    (bitsOfBytes [0xde, 0xad, 0xbe, 0xef]) 0xdeadbeef []
    (by decide) (by decide) (by decide)
    (dscptrLoop_stop 0 0 _ (by omega)) (by decide)]
  decide

/-- C2 (counterexample): a cue decoded successfully from a message with a
corrupted checksum — which the decoder accepts, since it verifies neither
the checksum nor the section length — does not satisfy the claimed
round-trip: re-encoding recomputes the checksum, so decoding the bytes
produced by `Encode` yields a cue whose `Crc32` field differs from the
original decoded cue's. -/
theorem decoded_cue_roundtrip_fails :
    (Cue.decodeBytes NewCue c2Bytes).1 = true ∧
    (Cue.decodeBytes NewCue
        (Cue.Encode (Cue.decodeBytes NewCue c2Bytes).2).2).2.Crc32
      ≠ (Cue.decodeBytes NewCue c2Bytes).2.Crc32 := by
  rw [c2_decode]
  refine ⟨rfl, ?_⟩
  show (Cue.decodeBytes NewCue (Cue.Encode c2X).2).2.Crc32 ≠ c2X.Crc32
  rw [decodeBytes_encode c2X (by decide)]
  decide

/-- C2 (amended): for every internally consistent canonical cue — the
object graph a conformant decode produces: header, command and descriptors
equal to the canonical image of their own wire form, loop length equal to
the encoded descriptor loop's byte length, no packet context, and the
checksum consistent with the encoded bytes — decoding the bytes produced
by `Encode` into a fresh cue succeeds and reproduces every field
(`InfoSection`, `Command`, `Dll`, `Descriptors`, `PacketData`, `Crc32`)
exactly. -/
theorem decode_encode_roundtrip (c : Cue)
    (h : c.encodeReady = true)
    (h1 : canonInfoSection (encHeader c) = c.InfoSection)
    (h2 : canonCommand c.Command = c.Command)
    (h3 : c.Descriptors.map canonDescriptor = c.Descriptors)
    (h4 : c.Dll = loopLen c.Descriptors)
    (h5 : c.PacketData = none)
    (h6 : c.Crc32 = cRC32 (bytesOfBits (c.encodeCore).2)) :
    Cue.decodeBytes NewCue (Cue.Encode c).2 = (true, c) := by
  rw [decodeBytes_encode c h, h1, h2, h3, ← h4, ← h5, ← h6]

theorem c2Wit_bytes : bytesOfBits (c2Wit.encodeCore).2
    = [252, 48, 47, 0, 0, 0, 0, 0, 0, 255, 255, 240, 5, 6, 254, 0] ++
      ([18, 214, 135, 0, 25, 2, 23, 67, 85, 69, 73, 0, 0, 0, 48, 127] ++
        [255, 0, 0, 41, 50, 224, 8, 3, 1, 2, 3, 48, 1, 1]) := by
  decide

theorem c2Wit_crc : cRC32 (bytesOfBits (c2Wit.encodeCore).2) = 4192417464 := by
  rw [c2Wit_bytes, cRC32, List.foldl_append, List.foldl_append]
  rw [show List.foldl crcByte 0xffffffff
      [252, 48, 47, 0, 0, 0, 0, 0, 0, 255, 255, 240, 5, 6, 254, 0]
    = 1488212480 from by decide]
  rw [show List.foldl crcByte 1488212480
      [18, 214, 135, 0, 25, 2, 23, 67, 85, 69, 73, 0, 0, 0, 48, 127]
    = 2732521383 from by decide]
  decide

/-- Witness for the round-trip theorem: the concrete consistent cue
`c2Wit` (a Time Signal with PTS and one Segmentation Descriptor)
satisfies every hypothesis and round-trips exactly. -/
theorem decode_encode_roundtrip_witness :
    c2Wit.encodeReady = true ∧
    canonInfoSection (encHeader c2Wit) = c2Wit.InfoSection ∧
    canonCommand c2Wit.Command = c2Wit.Command ∧
    c2Wit.Descriptors.map canonDescriptor = c2Wit.Descriptors ∧
    c2Wit.Dll = loopLen c2Wit.Descriptors ∧
    c2Wit.PacketData = none ∧
    c2Wit.Crc32 = cRC32 (bytesOfBits (c2Wit.encodeCore).2) ∧
    Cue.decodeBytes NewCue (Cue.Encode c2Wit).2 = (true, c2Wit) :=
  ⟨by decide, by decide, by decide, by decide, by decide, by decide,
    by rw [c2Wit_crc]; rfl,
    decode_encode_roundtrip c2Wit (by decide) (by decide) (by decide) (by decide)
      (by decide) (by decide) (by rw [c2Wit_crc]; rfl)⟩

/-- C9: `AdjustPts` adds the (tick-modelled) delta to
`InfoSection.PtsAdjustment` and immediately re-runs the encode pipeline;
when the cue is structurally encodable and the adjusted value fits the
33-bit field, the cue returned by `AdjustPts` carries `p + x`, and
decoding the freshly encoded bytes yields `PtsAdjustment = p + x` back. -/
theorem adjustPts_spec (cue : Cue) (x : Int)
    (h : cue.encodeReady = true)
    (hlo : 0 ≤ cue.InfoSection.PtsAdjustment + x)
    (hhi : cue.InfoSection.PtsAdjustment + x < 2 ^ 33) :
    (Cue.AdjustPts cue x).InfoSection.PtsAdjustment
        = cue.InfoSection.PtsAdjustment + x ∧
    (Cue.decodeBytes NewCue (Cue.Encode { cue with InfoSection :=
          { cue.InfoSection with
            PtsAdjustment := cue.InfoSection.PtsAdjustment + x } }).2
      ).2.InfoSection.PtsAdjustment = cue.InfoSection.PtsAdjustment + x := by
  have h1 : Cue.encodeReady { cue with InfoSection :=
      { cue.InfoSection with
        PtsAdjustment := cue.InfoSection.PtsAdjustment + x } } = true := by
    simp only [Cue.encodeReady, decide_eq_true_eq] at h ⊢
    exact h
  constructor
  · show (Cue.Encode { cue with InfoSection :=
        { cue.InfoSection with
          PtsAdjustment := cue.InfoSection.PtsAdjustment + x } }).1.InfoSection.PtsAdjustment
      = _
    rw [encode_isec]
    simp [encHeader]
  · rw [decodeBytes_encode _ h1]
    show (canonInfoSection (encHeader { cue with InfoSection :=
        { cue.InfoSection with
          PtsAdjustment := cue.InfoSection.PtsAdjustment + x } })).PtsAdjustment
      = _
    have hval : (cue.InfoSection.PtsAdjustment + x).emod 8589934592
        = cue.InfoSection.PtsAdjustment + x := Int.emod_eq_of_lt hlo (by norm_num at hhi ⊢; omega)
    simp [canonInfoSection, encHeader, hval, Int.toNat_of_nonneg hlo]

/-- Witness for the `AdjustPts` theorem at the concrete cue `c9Wit` and
delta 500. -/
theorem adjustPts_spec_witness :
    c9Wit.encodeReady = true ∧
    (0:Int) ≤ c9Wit.InfoSection.PtsAdjustment + 500 ∧
    c9Wit.InfoSection.PtsAdjustment + 500 < 2 ^ 33 ∧
    (Cue.AdjustPts c9Wit 500).InfoSection.PtsAdjustment
        = c9Wit.InfoSection.PtsAdjustment + 500 ∧
    (Cue.decodeBytes NewCue (Cue.Encode { c9Wit with InfoSection :=
          { c9Wit.InfoSection with
            PtsAdjustment := c9Wit.InfoSection.PtsAdjustment + 500 } }).2
      ).2.InfoSection.PtsAdjustment = c9Wit.InfoSection.PtsAdjustment + 500 :=
  ⟨by decide, by decide, by decide,
    (adjustPts_spec c9Wit 500 (by decide) (by decide) (by decide)).1,
    (adjustPts_spec c9Wit 500 (by decide) (by decide) (by decide)).2⟩

end Cuei
